import Mathlib

/-!
Verification model of the PredictIQ Jira epic analyzer core
(`DataProcessor` in the main data-processing module, plus its `SLAConfig`
collaborator).  JavaScript numbers are modelled as exact rationals (`ℚ`),
JS strings as Lean `String`, and nullable values (`null`/`undefined`) as
`Option`.  JS truthiness for strings: `null`, `undefined` and `""` are
falsy; every other string is truthy.  Code that can raise a `TypeError`
is modelled with `Except String`.
-/

namespace PredictIQ

instance exceptDecEq {ε α : Type} [DecidableEq ε] [DecidableEq α] :
    DecidableEq (Except ε α) := fun x y =>
  match x, y with
  | Except.error a, Except.error b =>
    if h : a = b then isTrue (by subst h; rfl)
    else isFalse (fun hc => by cases hc; exact h rfl)
  | Except.error _, Except.ok _ => isFalse (fun hc => by cases hc)
  | Except.ok _, Except.error _ => isFalse (fun hc => by cases hc)
  | Except.ok a, Except.ok b =>
    if h : a = b then isTrue (by subst h; rfl)
    else isFalse (fun hc => by cases hc; exact h rfl)

/-- JS string truthiness for a possibly-absent string value:
`undefined`/`null`/`""` are falsy. -/
def jsT (v : Option String) : Bool :=
  match v with
  | none => false
  | some s => s ≠ ""

/-- `x || dflt` for a possibly-absent string value. -/
def jsOr (v : Option String) (dflt : String) : String :=
  match v with
  | none => dflt
  | some s => if s = "" then dflt else s

/-- ASCII lower-casing of one character, as `String.prototype.toLowerCase`
acts on the ASCII range (the repository's statuses and headers are ASCII). -/
def lowChar (c : Char) : Char :=
  if 'A' ≤ c ∧ c ≤ 'Z' then Char.ofNat (c.toNat + 32) else c

/-- `s.toLowerCase()` (ASCII range). -/
def jsLower (s : String) : String :=
  String.mk (s.toList.map lowChar)

/-- Characters removed by the `replace(/[\s_]/g, '')` normalisation used in
`findColumn`: ASCII whitespace forms of the JS `\s` class, plus underscore. -/
def isWsOrUnd (c : Char) : Bool :=
  c = ' ' || c = '\t' || c = '\n' || c = '\r' ||
  c = Char.ofNat 11 || c = Char.ofNat 12 || c = '_'

/-- Header normalisation from `DataProcessor.findColumn`:
`h.toLowerCase().replace(/[\s_]/g, '')`. -/
def normHdr (s : String) : String :=
  String.mk ((s.toList.map lowChar).filter (fun c => !isWsOrUnd c))

/-- Numeric value of a list of decimal digit characters (most significant
first), as `parseInt` reads a captured digit string. -/
def digitsVal (l : List Char) : Nat :=
  l.foldl (fun a c => a * 10 + (c.toNat - 48)) 0

/-- One attempt of the regex `/(\d+)c/` at a fixed start position: greedily
take the digits at the head of `l`; the match succeeds when there is at least
one digit and the character right after them is `c`.  No backtracking can
occur because the unit characters `w`, `d`, `h` are not digits. -/
def matchHere (c : Char) (l : List Char) : Option Nat :=
  let ds := l.takeWhile Char.isDigit
  if ds.isEmpty then none
  else
    match l.dropWhile Char.isDigit with
    | y :: _ => if y = c then some (digitsVal ds) else none
    | [] => none

/-- `timeString.match(/(\d+)c/)?.[1]`, as a number: the regex engine tries
each start position from the left and returns the first successful match. -/
def reFirst (c : Char) : List Char → Option Nat
  | [] => none
  | x :: xs =>
    match matchHere c (x :: xs) with
    | some n => some n
    | none => reFirst c xs

/-- `DataProcessor.parseTimeInStatus`: `null`-like input, `""`, `"-"` and
`"No data"` yield `0`; otherwise the first matches of `/(\d+)w/`, `/(\d+)d/`
and `/(\d+)h/` (case-sensitive, an absent match counting as `0`) are combined
as `weeks*7 + days + hours/24`.  The function's `try`/`catch` can only fire on
non-string input, which the `Option` argument already covers, so the model is
total. -/
def parseTimeInStatus (t : Option String) : ℚ :=
  match t with
  | none => 0
  | some s =>
    if s = "" ∨ s = "-" ∨ s = "No data" then 0
    else
      let weeks := (reFirst 'w' s.toList).getD 0
      let days := (reFirst 'd' s.toList).getD 0
      let hours := (reFirst 'h' s.toList).getD 0
      (weeks : ℚ) * 7 + (days : ℚ) + (hours : ℚ) / 24

/-- Whether the pattern "digit immediately followed by `c`" occurs anywhere
in the list: exactly the condition under which `/(\d+)c/` matches. -/
def hasPat (c : Char) : List Char → Bool
  | x :: y :: rest => (x.isDigit && y = c) || hasPat c (y :: rest)
  | _ => false

example : parseTimeInStatus (some "No data") = 0 := by decide
example : reFirst 'w' "12w3w".toList = some 12 := by decide
example : reFirst 'd' "a1b22d".toList = some 22 := by decide

/-! ## SLA thresholds and `calculateSLAStatus` -/

/-- An SLA thresholds object: own enumerable string properties with integer
day values, in insertion order. -/
abbrev Thresholds := List (String × ℤ)

/-- Own-property lookup in a JS-object-as-dictionary. -/
def alookup (m : List (String × α)) (k : String) : Option α :=
  (m.find? (fun p => p.1 = k)).map (fun p => p.2)

/-- The fallback threshold map built inside `DataProcessor.getSLAThresholds`
when no `window.slaConfig` is installed. -/
def DEFAULT_SLA_THRESHOLDS : Thresholds :=
  [("to do", 15), ("todo", 15),
   ("refinement", 10), ("refinement ready", 10), ("ready for refinement", 10),
   ("in progress", 20), ("in development", 20),
   ("paused", 20),
   ("default", 30)]

/-- `DataProcessor.getSLAThresholds`: the configured map when
`window.slaConfig` is present, else the built-in fallback map. -/
def getSLAThresholds (cfg : Option Thresholds) : Thresholds :=
  cfg.getD DEFAULT_SLA_THRESHOLDS

/-- `DataProcessor.COMPLETED_STATUSES`. -/
def COMPLETED_STATUSES : List String :=
  ["done", "completed", "closed", "released", "deployed to production", "signed off"]

/-- `COMPLETED_STATUSES.includes(status?.toLowerCase())`. -/
def isCompletedStatus (status : Option String) : Bool :=
  match status with
  | some s => jsLower s ∈ COMPLETED_STATUSES
  | none => false

/-- Property names that a plain object literal inherits from
`Object.prototype`.  Reading such a name on a thresholds object yields a
truthy non-numeric value (a function, or for `__proto__` the prototype
object itself) instead of `undefined`. -/
def objProtoProps : List String :=
  ["constructor", "hasOwnProperty", "isPrototypeOf", "propertyIsEnumerable",
   "toLocaleString", "toString", "valueOf",
   "__defineGetter__", "__defineSetter__", "__lookupGetter__", "__lookupSetter__",
   "__proto__"]

/-- A value read off a thresholds object: either an own integer entry or a
truthy non-numeric value inherited from `Object.prototype`. -/
inductive ThreshVal where
  | num (t : ℤ)
  | protoObj
deriving DecidableEq

/-- `thresholds[k]`: own property first, then the inherited
`Object.prototype` members, else `undefined`. -/
def objGetThresh (m : Thresholds) (k : String) : Option ThreshVal :=
  match alookup m k with
  | some t => some (ThreshVal.num t)
  | none => if k ∈ objProtoProps then some ThreshVal.protoObj else none

/-- JS truthiness of a threshold value (`0` is falsy; inherited objects and
functions are truthy). -/
def threshTruthy : ThreshVal → Bool
  | ThreshVal.num t => t ≠ 0
  | ThreshVal.protoObj => true

/-- `thresholds[key] || thresholds.default`. -/
def threshLookup (m : Thresholds) (k : String) : Option ThreshVal :=
  let v := objGetThresh m k
  if v.any threshTruthy then v else objGetThresh m "default"

/-- `days >= threshold`: comparisons against a non-numeric threshold (or
against `undefined`) coerce to `NaN` and are false. -/
def daysGE (days : ℚ) (t : Option ThreshVal) : Bool :=
  match t with
  | some (ThreshVal.num v) => decide ((v : ℚ) ≤ days)
  | some ThreshVal.protoObj => false
  | none => false

/-- The `{class, text}` pair returned by `calculateSLAStatus`. -/
structure SLAStatus where
  cls : String
  text : String
deriving DecidableEq

/-- `status?.toLowerCase()` as a property key: an absent status indexes the
object with the string `"undefined"`. -/
def statusKeyOf (status : Option String) : String :=
  match status with
  | some s => jsLower s
  | none => "undefined"

/-- `DataProcessor.calculateSLAStatus(status, timeString)`, with the ambient
`window.slaConfig` thresholds passed explicitly as `cfg`. -/
def calculateSLAStatus (cfg : Option Thresholds) (status : Option String)
    (timeString : String) : SLAStatus :=
  if isCompletedStatus status then ⟨"closed", "Closed"⟩
  else if daysGE (parseTimeInStatus (some timeString))
      (threshLookup (getSLAThresholds cfg) (statusKeyOf status)) then
    ⟨"at-risk", "At Risk"⟩
  else ⟨"on-track", "On Track"⟩

/-! ## `parseFloat` and `toFixed(1)` -/

/-- ASCII whitespace skipped by `parseFloat`. -/
def jsIsSpace (c : Char) : Bool :=
  c = ' ' || c = '\t' || c = '\n' || c = '\r' || c = Char.ofNat 11 || c = Char.ofNat 12

/-- `parseFloat(s)`: the longest prefix of the form
sign, digits, optional fraction, optional exponent, after leading whitespace;
`none` models `NaN`.  (The `Infinity` literal is not modelled; JS numbers are
idealised as exact rationals.) -/
def jsParseFloat (s : String) : Option ℚ :=
  let l := s.toList.dropWhile jsIsSpace
  let sgn : ℚ := match l with
    | '-' :: _ => -1
    | _ => 1
  let l1 : List Char := match l with
    | '-' :: r => r
    | '+' :: r => r
    | _ => l
  let ip := l1.takeWhile Char.isDigit
  let l2 := l1.dropWhile Char.isDigit
  let fp : List Char := match l2 with
    | '.' :: r => r.takeWhile Char.isDigit
    | _ => []
  let l3 : List Char := match l2 with
    | '.' :: r => r.dropWhile Char.isDigit
    | _ => l2
  if ip.isEmpty && fp.isEmpty then none
  else
    let mant : ℚ := (digitsVal ip : ℚ) + (digitsVal fp : ℚ) / (10 : ℚ) ^ fp.length
    let ex : ℤ := match l3 with
      | 'e' :: r =>
        (match r with
         | '-' :: t => if (t.takeWhile Char.isDigit).isEmpty then 0
                       else -(digitsVal (t.takeWhile Char.isDigit) : ℤ)
         | '+' :: t => if (t.takeWhile Char.isDigit).isEmpty then 0
                       else (digitsVal (t.takeWhile Char.isDigit) : ℤ)
         | _ => if (r.takeWhile Char.isDigit).isEmpty then 0
                else (digitsVal (r.takeWhile Char.isDigit) : ℤ))
      | 'E' :: r =>
        (match r with
         | '-' :: t => if (t.takeWhile Char.isDigit).isEmpty then 0
                       else -(digitsVal (t.takeWhile Char.isDigit) : ℤ)
         | '+' :: t => if (t.takeWhile Char.isDigit).isEmpty then 0
                       else (digitsVal (t.takeWhile Char.isDigit) : ℤ)
         | _ => if (r.takeWhile Char.isDigit).isEmpty then 0
                else (digitsVal (r.takeWhile Char.isDigit) : ℤ))
      | _ => 0
    some (sgn * mant * (10 : ℚ) ^ ex)

/-- `parseFloat(cell || 0) || 0` as applied to a story-points cell: a falsy
cell parses as `0`, a `NaN` parse result collapses to `0`. -/
def jsPoints (cell : Option String) : ℚ :=
  match cell with
  | some s => if s = "" then 0 else (jsParseFloat s).getD 0
  | none => 0

/-- Decimal rendering of `m` tenths as `"i.f"`. -/
def tenthsRender (m : Nat) : String :=
  Nat.repr (m / 10) ++ "." ++ Nat.repr (m % 10)

/-- `x.toFixed(1)`: round to the nearest tenth, ties toward the larger
value, then render with exactly one fractional digit. -/
def toFixed1 (q : ℚ) : String :=
  let n : ℤ := ⌊q * 10 + 1 / 2⌋
  if n < 0 then "-" ++ tenthsRender n.natAbs else tenthsRender n.toNat

/-! ## CSV rows and column resolution -/

/-- One parsed CSV row: the object built by the CSV parser, mapping header
name to cell text. -/
abbrev Rec := List (String × String)

/-- `record[header]`. -/
def getCellH (r : Rec) (h : String) : Option String :=
  alookup r h

/-- `record[col]` where the column may be unresolved (`null`); an
unresolved column reads as `undefined`. -/
def getCell (r : Rec) (c : Option String) : Option String :=
  c.bind (getCellH r)

/-- The `{headers, records}` object handed to `processMainCSV`. -/
structure CSVData where
  headers : List String
  records : List Rec

/-- `String.prototype.includes`: is `pat` a contiguous sublist of `l`? -/
def hasSub (pat : List Char) : List Char → Bool
  | [] => pat.isEmpty
  | c :: rest => pat.isPrefixOf (c :: rest) || hasSub pat rest

/-- `DataProcessor.findColumn(headers, possibleNames)`: for each candidate
name in order, first an exact match on normalised headers, then the first
header whose normalised form contains the normalised candidate. -/
def findColumn (headers : List String) : List String → Option String
  | [] => none
  | name :: rest =>
    let normalized := headers.map normHdr
    let target := normHdr name
    match normalized.findIdx? (fun h => h = target) with
    | some i => headers.get? i
    | none =>
      match normalized.findIdx? (fun h => hasSub target.toList h.toList) with
      | some i => headers.get? i
      | none => findColumn headers rest

/-- The column assignments resolved at the top of `processMainCSV`. -/
structure Cols where
  keyCol : Option String
  idCol : Option String
  typeCol : Option String
  statusCol : Option String
  summaryCol : Option String
  sprintCol : Option String
  pointsCol : Option String
  epicLinkCol : Option String
  epicKeyCol : Option String
  parentCol : Option String
  customParentCol : Option String
  assigneeCol : Option String
  creatorCol : Option String
  componentCol : Option String
  projectCol : Option String

/-- The `findColumn` calls at the top of `processMainCSV`, with the candidate
lists used there. -/
def resolveCols (headers : List String) : Cols where
  keyCol := findColumn headers ["Key", "Issue key"]
  idCol := findColumn headers ["ID", "Issue id"]
  typeCol := findColumn headers ["Issue Type", "IssueType"]
  statusCol := findColumn headers ["Status"]
  summaryCol := findColumn headers ["Summary"]
  sprintCol := findColumn headers ["Sprint"]
  pointsCol := findColumn headers ["Custom field (Story Points)", "Story Points"]
  epicLinkCol := findColumn headers ["Epic Link", "Custom field (Epic Link)", "Parent Epic"]
  epicKeyCol := findColumn headers ["Epic", "Epic Key"]
  parentCol := findColumn headers ["Parent", "Parent Link", "Parent Issue"]
  customParentCol := findColumn headers ["Custom field (Parent Link)", "Custom field (Epic)"]
  assigneeCol := findColumn headers ["Assignee"]
  creatorCol := findColumn headers ["Creator", "Created by"]
  componentCol := findColumn headers ["Component/s", "Components"]
  projectCol := findColumn headers ["Project", "Project key"]

/-! ## Epics, child issues, pass 1 -/

/-- A child issue object created during pass 2 or by the balanced
distribution fallback. -/
structure ChildIssue where
  id : Option String
  key : Option String
  name : String
  type : Option String
  status : String
  sprint : String
  storyPoints : ℚ
  parentEpicId : Option String
  isCompleted : Bool
  matchMethod : Option String
deriving DecidableEq

/-- An epic object created during pass 1 of `processMainCSV`.  The unused
`timeInStatus: {}` placeholder field of the source object is omitted: it is
never read and is replaced wholesale by `mergeEpicData`. -/
structure Epic where
  id : Option String
  key : Option String
  issueId : Option String
  name : Option String
  status : Option String
  sprint : String
  storyPoints : ℚ
  created : Option String
  assignee : String
  creator : String
  component : String
  project : String
  children : List ChildIssue
  totalStoryPoints : ℚ
  completedStoryPoints : ℚ
deriving DecidableEq

/-- The epic object materialised in pass 1 for a record whose issue type is
`epic`. -/
def mkEpic (cols : Cols) (r : Rec) : Epic where
  id := getCell r cols.keyCol
  key := getCell r cols.keyCol
  issueId := getCell r cols.idCol
  name := getCell r cols.summaryCol
  status := getCell r cols.statusCol
  sprint := jsOr (getCell r cols.sprintCol) ""
  storyPoints := jsPoints (getCell r cols.pointsCol)
  created := getCellH r "Created"
  assignee := jsOr (getCell r cols.assigneeCol) ""
  creator := jsOr (getCell r cols.creatorCol) ""
  component := jsOr (getCell r cols.componentCol) ""
  project := jsOr (getCell r cols.projectCol) ""
  children := []
  totalStoryPoints := jsPoints (getCell r cols.pointsCol)
  completedStoryPoints :=
    if isCompletedStatus (getCell r cols.statusCol) then jsPoints (getCell r cols.pointsCol)
    else 0

/-- Pass-1 state: the `issuesById` map (`Map.set` overwrites, so the most
recent binding is consed to the front) and the epics array in discovery
order.  The `issuesByKey` map of the source is omitted: it is written but
never read. -/
structure P1State where
  byId : List (String × Rec)
  epics : List Epic

/-- One `records.forEach` step of pass 1. -/
def pass1Step (cols : Cols) (st : P1State) (r : Rec) : P1State :=
  let issueId := getCell r cols.idCol
  let issueType := (getCell r cols.typeCol).map jsLower
  let byId := if jsT issueId then (issueId.getD "", r) :: st.byId else st.byId
  let epics := if issueType = some "epic" then st.epics ++ [mkEpic cols r] else st.epics
  ⟨byId, epics⟩

/-- Pass 1 over all records. -/
def pass1 (cols : Cols) (records : List Rec) : P1State :=
  records.foldl (pass1Step cols) ⟨[], []⟩

/-- `epicsByKey.has(k)`: some epic in the array carries key `k`.  (The
`epicsByKey` map always holds exactly the records of `epics`, keyed by id,
with a later duplicate overwriting an earlier one.) -/
def hasKey (epics : List Epic) (k : String) : Bool :=
  epics.any (fun e => e.id == some k)

/-- `epicsByKey.get(k)` as an index into the epics array: the most recently
created epic with id `k`. -/
def lastIdxWithKey : List Epic → String → Option Nat
  | [], _ => none
  | e :: rest, k =>
    match lastIdxWithKey rest k with
    | some i => some (i + 1)
    | none => if e.id == some k then some 0 else none

/-- Attach a child to the epic at index `i`: push onto its children, add the
child points to `totalStoryPoints`, and to `completedStoryPoints` when the
child status is completed.  (The `!isNaN` guard of the source is always true
here: the points value already collapsed `NaN` to `0`.) -/
def addChildAt (epics : List Epic) (i : Nat) (c : ChildIssue) : List Epic :=
  match epics.get? i with
  | some e =>
    epics.set i
      { e with
        children := e.children ++ [c]
        totalStoryPoints := e.totalStoryPoints + c.storyPoints
        completedStoryPoints :=
          e.completedStoryPoints + (if c.isCompleted then c.storyPoints else 0) }
  | none => epics

/-! ## Pass 2: the four linkage strategies -/

/-- One of the three structurally identical key-matching methods of pass 2
(methods 1, 2 and 4): guarded by `!parentEpicKey`, a present column with a
truthy cell whose value is a known epic key assigns that key, otherwise
`parentEpicKey` is left unchanged. -/
def tryKeyMatch (epics : List Epic) (col : Option String) (r : Rec)
    (p : Option String) : Option String :=
  if !jsT p && (col.isSome && jsT (getCell r col)) then
    if hasKey epics ((getCell r col).getD "") then some ((getCell r col).getD "") else p
  else p

/-- Method 3 of pass 2: the parent cell is treated as an issue id, resolved
through `issuesById`; when the resolved record has issue type `epic`, its
key (which may itself be missing or empty, leaving `parentEpicKey` falsy so
that method 4 still runs) is assigned. -/
def tryParentId (cols : Cols) (byId : List (String × Rec)) (r : Rec)
    (p : Option String) : Option String :=
  if !jsT p && (cols.parentCol.isSome && jsT (getCell r cols.parentCol)) then
    match alookup byId ((getCell r cols.parentCol).getD "") with
    | some pr =>
      if (getCell pr cols.typeCol).map jsLower = some "epic" then getCell pr cols.keyCol
      else p
    | none => p
  else p

/-- The `parentEpicKey` computation of pass 2: the four methods in source
order, then the final `parentEpicKey && epicsByKey.has(parentEpicKey)`
check. -/
def linkDecision (cols : Cols) (byId : List (String × Rec)) (epics : List Epic)
    (r : Rec) : Option String :=
  let p4 :=
    tryKeyMatch epics cols.customParentCol r
      (tryParentId cols byId r
        (tryKeyMatch epics cols.epicKeyCol r
          (tryKeyMatch epics cols.epicLinkCol r none)))
  if jsT p4 && hasKey epics (p4.getD "") then some (p4.getD "") else none

/-- The child issue object created in pass 2. -/
def mkChild2 (cols : Cols) (r : Rec) (parentKey : String) : ChildIssue where
  id := getCell r cols.keyCol
  key := getCell r cols.keyCol
  name := jsOr (getCell r cols.summaryCol) "Unnamed Issue"
  type := (getCell r cols.typeCol).map jsLower
  status := jsOr (getCell r cols.statusCol) "Unknown"
  sprint := jsOr (getCell r cols.sprintCol) ""
  storyPoints := jsPoints (getCell r cols.pointsCol)
  parentEpicId := some parentKey
  isCompleted := isCompletedStatus (getCell r cols.statusCol)
  matchMethod := none

/-- One `records.forEach` step of pass 2; the `Nat` component counts
`linkedIssuesCount`. -/
def pass2Step (cols : Cols) (byId : List (String × Rec))
    (st : List Epic × Nat) (r : Rec) : List Epic × Nat :=
  let issueType := (getCell r cols.typeCol).map jsLower
  if issueType = some "epic" then st
  else
    match linkDecision cols byId st.1 r with
    | some k =>
      match lastIdxWithKey st.1 k with
      | some i => (addChildAt st.1 i (mkChild2 cols r k), st.2 + 1)
      | none => st
    | none => st

/-- Pass 2 over all records, starting from the pass-1 epics. -/
def pass2 (cols : Cols) (byId : List (String × Rec)) (records : List Rec)
    (epics : List Epic) : List Epic × Nat :=
  records.foldl (pass2Step cols byId) (epics, 0)

/-! ## Balanced-distribution fallback -/

/-- `getProjectKey`: the capture of `/^([A-Z]+-)/` applied to a possibly
undefined key; `none` models both a missing key and a failed match. -/
def getProjKey (k : Option String) : Option String :=
  match k with
  | none => none
  | some s =>
    let letters := s.toList.takeWhile (fun c => 'A' ≤ c && c ≤ 'Z')
    match s.toList.dropWhile (fun c => 'A' ≤ c && c ≤ 'Z') with
    | '-' :: _ => if letters.isEmpty then none else some (String.mk (letters ++ ['-']))
    | _ => none

/-- The `nonEpicIssues` filter of the fallback: a truthy lower-cased issue
type other than `epic`, and a truthy key. -/
def nonEpicFilter (cols : Cols) (r : Rec) : Bool :=
  let t := (getCell r cols.typeCol).map jsLower
  jsT t && !(t == some "epic") && jsT (getCell r cols.keyCol)

/-- Append `i` to the group of `p`, creating the group at the end on first
sight (JS object property insertion order). -/
def assocAppend (groups : List (String × List Nat)) (p : String) (i : Nat) :
    List (String × List Nat) :=
  match groups with
  | [] => [(p, [i])]
  | (q, g) :: rest => if q = p then (q, g ++ [i]) :: rest else (q, g) :: assocAppend rest p i

/-- `epicsByProject`: epics grouped by project key, holding indices into the
epics array (the JS groups hold references into the same array). -/
def buildGroups (epics : List Epic) : List (String × List Nat) :=
  (List.range epics.length).foldl
    (fun groups i =>
      match getProjKey ((epics.get? i).bind (fun e => e.key)) with
      | some p => assocAppend groups p i
      | none => groups)
    []

/-- Code-point comparison of character lists. -/
def listLe : List Char → List Char → Bool
  | [], _ => true
  | _ :: _, [] => false
  | a :: as, b :: bs => a.toNat < b.toNat || (a = b && listLe as bs)

/-- `a.localeCompare(b) <= 0`, idealised as code-point order (the compared
values are plain ASCII issue keys). -/
def strLe (a b : String) : Bool :=
  listLe a.toList b.toList

/-- The sort key used by `projectEpics.sort((a, b) => a.id.localeCompare(b.id))`. -/
def epicIdAt (epics : List Epic) (i : Nat) : String :=
  ((epics.get? i).bind (fun e => e.id)).getD ""

/-- Insert into a list sorted ascending by `key`. -/
def insByKey (key : Nat → String) (i : Nat) : List Nat → List Nat
  | [] => [i]
  | j :: rest => if strLe (key i) (key j) then i :: j :: rest else j :: insByKey key i rest

/-- Insertion sort ascending by `key` (a stable comparison sort, as
`Array.prototype.sort` is). -/
def sortIdx (key : Nat → String) : List Nat → List Nat
  | [] => []
  | j :: rest => insByKey key j (sortIdx key rest)

/-- Sort every project group ascending by epic id. -/
def sortGroups (epics : List Epic) (groups : List (String × List Nat)) :
    List (String × List Nat) :=
  groups.map (fun pg => (pg.1, sortIdx (epicIdAt epics) pg.2))

/-- Number of children currently held by the epic at index `i`. -/
def childCountAt (epics : List Epic) (i : Nat) : Nat :=
  ((epics.get? i).map (fun e => e.children.length)).getD 0

/-- `epic.key` of the epic at index `i`. -/
def epicKeyAt (epics : List Epic) (i : Nat) : Option String :=
  (epics.get? i).bind (fun e => e.key)

/-- The `reduce` picking the epic with the fewest children: the initial
value is the first group element, which the reduction then visits again, so
with the strict `<` the earliest minimum wins. -/
def pickFewest (epics : List Epic) (g0 : Nat) (g : List Nat) : Nat :=
  g.foldl (fun m i => if childCountAt epics i < childCountAt epics m then i else m) g0

/-- The child issue object created by the balanced distribution fallback. -/
def mkChildFB (cols : Cols) (r : Rec) (parentKey : Option String) : ChildIssue where
  id := getCell r cols.keyCol
  key := getCell r cols.keyCol
  name := jsOr (getCell r cols.summaryCol) "Unnamed Issue"
  type := some (jsOr ((getCell r cols.typeCol).map jsLower) "unknown")
  status := jsOr (getCell r cols.statusCol) "Unknown"
  sprint := jsOr (getCell r cols.sprintCol) ""
  storyPoints := jsPoints (getCell r cols.pointsCol)
  parentEpicId := parentKey
  isCompleted := isCompletedStatus (getCell r cols.statusCol)
  matchMethod := some "balanced-distribution"

/-- One `nonEpicIssues.forEach` step of the balanced distribution. -/
def distributeStep (cols : Cols) (groups : List (String × List Nat))
    (epics : List Epic) (r : Rec) : List Epic :=
  match getProjKey (getCell r cols.keyCol) with
  | some p =>
    match alookup groups p with
    | some g =>
      match g with
      | [] => epics
      | g0 :: _ =>
        let target := pickFewest epics g0 g
        addChildAt epics target (mkChildFB cols r (epicKeyAt epics target))
    | none => epics
  | none => epics

/-- The whole balanced-distribution fallback: groups are built and sorted
once, then every filtered record is distributed against the live epics
state. -/
def fallbackRun (cols : Cols) (records : List Rec) (epics : List Epic) : List Epic :=
  let nonEpic := records.filter (nonEpicFilter cols)
  let groups := sortGroups epics (buildGroups epics)
  nonEpic.foldl (distributeStep cols groups) epics

/-! ## `processMainCSV` -/

/-- Insert into an epic list sorted ascending by id. -/
def insEpic (e : Epic) : List Epic → List Epic
  | [] => [e]
  | f :: rest =>
    if strLe (e.id.getD "") (f.id.getD "") then e :: f :: rest else f :: insEpic e rest

/-- The final `epics.sort((a, b) => a.id.localeCompare(b.id))`, idealised as
a stable code-point-order sort. -/
def sortEpicsByKey : List Epic → List Epic
  | [] => []
  | e :: rest => insEpic e (sortEpicsByKey rest)

/-- Pass 1 followed by pass 2: the epics with their strategy-linked
children, and `linkedIssuesCount`. -/
def pass2Stage (data : CSVData) : List Epic × Nat :=
  let cols := resolveCols data.headers
  let p1 := pass1 cols data.records
  pass2 cols p1.byId data.records p1.epics

/-- `linkedIssuesCount` after pass 2. -/
def linkedCount (data : CSVData) : Nat :=
  (pass2Stage data).2

/-- The epics array as it stands after pass 1, pass 2 and the conditional
balanced-distribution fallback, before the final sort.  The fallback guard
`linkedIssuesCount < records.length * 0.1` is modelled exactly as
`10 * linked < records.length`: for counts far below `2^52` the JS
double-precision product `records.length * 0.1` rounds to a value that
compares identically against every integer. -/
def epicsStage (data : CSVData) : List Epic :=
  if 10 * (pass2Stage data).2 < data.records.length then
    fallbackRun (resolveCols data.headers) data.records (pass2Stage data).1
  else (pass2Stage data).1

/-- The `{epics, childIssues}` result. -/
structure MainOut where
  epics : List Epic
  childIssues : List ChildIssue
deriving DecidableEq

/-- The body of `processMainCSV` inside its `try`.  The only statement of
the body that can raise on well-typed input is the final sort: comparing two
epics whose first operand has an undefined id raises a `TypeError` in
`a.id.localeCompare`.  With at most one epic the comparator never runs; with
two or more epics all carrying ids the sort succeeds.  (For a mix of defined
and undefined ids the engine call order of the comparator decides; the
development only relies on the homogeneous cases.) -/
def mainBody (data : CSVData) : Except String MainOut :=
  let epicsF := epicsStage data
  if epicsF.length ≤ 1 then
    Except.ok ⟨epicsF, (epicsF.map (fun e => e.children)).flatten⟩
  else if epicsF.all (fun e => e.id.isSome) then
    let sorted := sortEpicsByKey epicsF
    Except.ok ⟨sorted, (sorted.map (fun e => e.children)).flatten⟩
  else
    Except.error "Cannot read properties of undefined (reading localeCompare)"

/-- `DataProcessor.processMainCSV`: the body wrapped by the
`catch (error) { throw new Error(...) }` re-raise. -/
def processMainCSV (data : CSVData) : Except String MainOut :=
  match mainBody data with
  | Except.ok out => Except.ok out
  | Except.error m => Except.error ("Failed to process main CSV data: " ++ m)

/-! ## `mergeEpicData` -/

/-- The time-tracking data held for one issue key: status column name to
duration text. -/
abbrev TimeData := List (String × String)

/-- The map produced by `processTimeCSV`: issue key to time data. -/
abbrev TimeMap := List (String × TimeData)

/-- The status normalisation used when matching time-data columns:
`key.toLowerCase().replace(/[\s_-]+/g, '')`. -/
def normStat (s : String) : String :=
  String.mk ((s.toList.map lowChar).filter (fun c => !(isWsOrUnd c || c = '-')))

/-- The `Object.keys(timeData).find(...)` search for the column matching the
epic status.  A falsy key short-circuits before the status is touched;
otherwise `epic.status.toLowerCase()` raises a `TypeError` when the status
is undefined. -/
def findStatusKey (status : Option String) : List String → Except String (Option String)
  | [] => Except.ok none
  | k :: rest =>
    if k = "" then findStatusKey status rest
    else
      match status with
      | none => Except.error "Cannot read properties of undefined (reading toLowerCase)"
      | some st =>
        if normStat k = normStat st then Except.ok (some k) else findStatusKey status rest

/-- An epic as returned by `mergeEpicData`: the input epic spread together
with the three merged fields. -/
structure MergedEpic where
  base : Epic
  timeInStatus : String
  cycleTime : String
  slaStatus : SLAStatus
deriving DecidableEq

/-- The per-epic body inside the `epics.map` of `mergeEpicData`, as the
computation that the per-epic `try` protects. -/
def mergeOneE (cfg : Option Thresholds) (tm : TimeMap) (e : Epic) :
    Except String MergedEpic := do
  let timeData := (e.id.bind (alookup tm)).getD []
  let statusKey ←
    if timeData.isEmpty then pure none
    else findStatusKey e.status (timeData.map (fun p => p.1))
  let tis : String :=
    match statusKey with
    | some k => if jsT (alookup timeData k) then (alookup timeData k).getD "" else "-"
    | none => "-"
  let inProgress := parseTimeInStatus (some (jsOr (alookup timeData "In Progress") ""))
  let codeReview := parseTimeInStatus (some (jsOr (alookup timeData "Code Review") ""))
  let cycleTime := inProgress + codeReview
  pure
    { base := e
      timeInStatus := tis
      cycleTime := if 0 < cycleTime then toFixed1 cycleTime else "-"
      slaStatus := calculateSLAStatus cfg e.status tis }

/-- The safe default substituted by the per-epic `catch`. -/
def mergeDefault (e : Epic) : MergedEpic where
  base := e
  timeInStatus := "-"
  cycleTime := "-"
  slaStatus := ⟨"on-track", "Unknown"⟩

/-- `DataProcessor.mergeEpicData(epics, timeMap)`: a nullish or non-array
epics argument yields `[]`; a nullish time map is replaced by an empty map;
each epic is processed under a per-epic `try`, the `catch` substituting
`mergeDefault`.  The outer `catch` that would re-raise is unreachable on
well-typed input. -/
def mergeEpicData (epics : Option (List Epic)) (tm : Option TimeMap)
    (cfg : Option Thresholds) : List MergedEpic :=
  match epics with
  | none => []
  | some es =>
    let tmap := tm.getD []
    es.map (fun e =>
      match mergeOneE cfg tmap e with
      | Except.ok m => m
      | Except.error _ => mergeDefault e)

/-! ## `calculateMetrics` -/

/-- The `overall` metrics record (percentage-like figures are the
`toFixed(1)` strings the source builds). -/
structure OverallMetrics where
  totalEpics : Nat
  totalCommitted : ℚ
  totalCompleted : ℚ
  realization : String
  avgCycleTime : String
  atRiskCount : Nat
  atRiskPercentage : String
deriving DecidableEq

/-- One sprint rollup. -/
structure SprintMetrics where
  name : String
  committed : ℚ
  completed : ℚ
  realization : String
  avgCycleTime : String
  epics : List MergedEpic
deriving DecidableEq

/-- The `{overall, sprintData}` result. -/
structure Metrics where
  overall : OverallMetrics
  sprintData : List SprintMetrics
deriving DecidableEq

/-- The minimal metrics object returned by both the input guard and the
`catch` of `calculateMetrics`. -/
def defaultMetrics (n : Nat) : Metrics where
  overall :=
    { totalEpics := n
      totalCommitted := 0
      totalCompleted := 0
      realization := "0.0"
      avgCycleTime := "0.0"
      atRiskCount := 0
      atRiskPercentage := "0.0" }
  sprintData := []

/-- Per-sprint accumulator. -/
structure SprintAcc where
  committed : ℚ
  completed : ℚ
  cycleSum : ℚ
  cycleCount : Nat
  epics : List MergedEpic

/-- `epic.sprint || 'No Sprint'`. -/
def sprintNameOf (e : MergedEpic) : String :=
  if e.base.sprint = "" then "No Sprint" else e.base.sprint

/-- The numeric cycle time of an epic as the source reads it back:
`parseFloat(epic.cycleTime)` when the string is truthy and not the `"-"`
sentinel, skipped otherwise or when it parses to `NaN`. -/
def cycleValOf (e : MergedEpic) : Option ℚ :=
  if e.cycleTime ≠ "" ∧ e.cycleTime ≠ "-" then jsParseFloat e.cycleTime else none

/-- Fold one epic into the per-sprint accumulator map. -/
def sprintStep (acc : List (String × SprintAcc)) (e : MergedEpic) :
    List (String × SprintAcc) :=
  let name := sprintNameOf e
  let upd : SprintAcc → SprintAcc := fun a =>
    { committed := a.committed + e.base.totalStoryPoints
      completed := a.completed + e.base.completedStoryPoints
      cycleSum := a.cycleSum + (cycleValOf e).getD 0
      cycleCount := a.cycleCount + (if (cycleValOf e).isSome then 1 else 0)
      epics := a.epics ++ [e] }
  match alookup acc name with
  | some a =>
    acc.map (fun p => if p.1 = name then (p.1, upd a) else p)
  | none => acc ++ [(name, upd ⟨0, 0, 0, 0, []⟩)]

/-- The metrics computation on a batch that raises nothing. -/
def metricsOf (es : List MergedEpic) : Metrics :=
  let sprints := es.foldl sprintStep []
  let totalCommitted := es.foldl (fun a e => a + e.base.totalStoryPoints) 0
  let totalCompleted := es.foldl (fun a e => a + e.base.completedStoryPoints) 0
  let totalCycle := es.foldl (fun a e => a + (cycleValOf e).getD 0) 0
  let totalCount := es.foldl (fun a e => a + (if (cycleValOf e).isSome then 1 else 0)) 0
  let atRiskCount := (es.filter (fun e => e.slaStatus.cls = "at-risk")).length
  let overallRealization : ℚ := if 0 < totalCommitted then totalCompleted / totalCommitted * 100 else 0
  let avgCycleTime : ℚ := if 0 < totalCount then totalCycle / (totalCount : ℚ) else 0
  let atRiskPercentage : ℚ :=
    if 0 < es.length then (atRiskCount : ℚ) / (es.length : ℚ) * 100 else 0
  { overall :=
      { totalEpics := es.length
        totalCommitted := totalCommitted
        totalCompleted := totalCompleted
        realization := toFixed1 overallRealization
        avgCycleTime := toFixed1 avgCycleTime
        atRiskCount := atRiskCount
        atRiskPercentage := toFixed1 atRiskPercentage }
    sprintData :=
      sprints.map (fun p =>
        ({ name := p.1
           committed := p.2.committed
           completed := p.2.completed
           realization := toFixed1 (if p.2.committed ≠ (0 : ℚ) then p.2.completed / p.2.committed * 100 else 0)
           avgCycleTime := toFixed1 (if p.2.cycleCount ≠ 0 then p.2.cycleSum / (p.2.cycleCount : ℚ) else 0)
           epics := p.2.epics } : SprintMetrics)) }

/-- The body of `calculateMetrics` inside its `try`, on an epics array whose
elements may be `null`.  A `null` element raises a `TypeError` at
`epic.sprint`; an epic whose sprint bucket name collides with an inherited
`Object.prototype` property makes `sprints[sprint]` truthy without the
bucket ever being initialised, so `sprints[sprint].epics.push` raises. -/
def calculateMetricsE (es : List (Option MergedEpic)) : Except String Metrics :=
  if es.any (fun e => e.isNone) then
    Except.error "Cannot read properties of null (reading sprint)"
  else
    let clean := es.filterMap id
    if clean.any (fun e => sprintNameOf e ∈ objProtoProps) then
      Except.error "Cannot read properties of undefined (reading push)"
    else
      Except.ok (metricsOf clean)

/-- `DataProcessor.calculateMetrics(epics)`: the input guard returns the
minimal metrics object for a nullish argument, and the `catch` returns the
same minimal object (with `totalEpics = epics?.length || 0`) instead of
re-raising. -/
def calculateMetrics (epics : Option (List (Option MergedEpic))) : Metrics :=
  match epics with
  | none => defaultMetrics 0
  | some es =>
    match calculateMetricsE es with
    | Except.ok m => m
    | Except.error _ => defaultMetrics es.length

/-! ## Characterising the first match of `/(\d+)c/` -/

/-- The given list does not end in a digit (so a digit run cannot extend
past its right end). -/
def endsNonDigit : List Char → Bool
  | [] => true
  | [x] => !x.isDigit
  | _ :: y :: rest => endsNonDigit (y :: rest)

/-- Declarative description of a successful match of `/(\d+)c/` with value
`n`: the input splits as `a ++ ds ++ c :: b` where `ds` is a nonempty digit
run, `a` does not end in a digit (the run is maximal), and no digit is
immediately followed by `c` anywhere inside `a ++ ds` (this occurrence is the
first).  `digitsVal ds` is the captured integer. -/
def SpecMatch (c : Char) (l : List Char) (n : Nat) : Prop :=
  ∃ a ds b, l = a ++ ds ++ c :: b ∧ ds ≠ [] ∧ (∀ d ∈ ds, d.isDigit = true) ∧
    endsNonDigit a = true ∧ hasPat c (a ++ ds) = false ∧ digitsVal ds = n

/-- Declarative description of the value of `match(/(\d+)c/)?.[1] || 0`:
either a first match with value `n`, or no digit-then-`c` occurrence at all
and `n = 0`. -/
def specUnit (c : Char) (l : List Char) (n : Nat) : Prop :=
  SpecMatch c l n ∨ (hasPat c l = false ∧ n = 0)

lemma hasPat_tail {c x : Char} {xs : List Char} (h : hasPat c (x :: xs) = false) :
    hasPat c xs = false := by
  cases xs with
  | nil => rfl
  | cons y rest =>
    have h' := h
    unfold hasPat at h'
    simpa using (Bool.or_eq_false_iff.mp h').2

lemma hasPat_cons_pair {c x y : Char} {rest : List Char}
    (h : hasPat c (x :: y :: rest) = false) (hx : x.isDigit = true) : y ≠ c := by
  have h' := h
  unfold hasPat at h'
  have := (Bool.or_eq_false_iff.mp h').1
  intro hyc
  rw [hx, hyc] at this
  simp at this

/-- Under `hasPat c m = false`, if `m` starts with a digit then the first
non-digit of `m` is not `c`. -/
lemma dropWhile_head_ne (c : Char) :
    ∀ (m : List Char), hasPat c m = false → m.head?.any Char.isDigit = true →
      ∀ y ys, m.dropWhile Char.isDigit = y :: ys → y ≠ c := by
  intro m
  induction m with
  | nil => intro _ hh; simp at hh
  | cons z zs ih =>
    intro h hh y ys hdrop
    have hx : z.isDigit = true := by simpa using hh
    cases zs with
    | nil =>
      rw [List.dropWhile_cons_of_pos (by simpa using hx)] at hdrop
      cases hdrop
    | cons w ws =>
      have hwc : w ≠ c := hasPat_cons_pair h hx
      rw [List.dropWhile_cons_of_pos (by simpa using hx)] at hdrop
      by_cases hw : w.isDigit = true
      · exact ih (hasPat_tail h) (by simpa using hw) y ys hdrop
      · rw [List.dropWhile_cons_of_neg (by simpa using hw)] at hdrop
        injection hdrop with h1 _
        exact h1 ▸ hwc

/-- Under `hasPat c m = false`, the regex attempt at the start of `m`
fails. -/
lemma matchHere_none (c : Char) :
    ∀ (m : List Char), hasPat c m = false → matchHere c m = none := by
  intro m hm
  cases m with
  | nil => rfl
  | cons x xs =>
    by_cases hx : x.isDigit = true
    · unfold matchHere
      rw [List.takeWhile_cons_of_pos (by simpa using hx)]
      simp only [List.isEmpty_cons]
      rcases hdrop : (x :: xs).dropWhile Char.isDigit with _ | ⟨y, ys⟩
      · simp
      · have hy : y ≠ c := dropWhile_head_ne c (x :: xs) hm (by simpa using hx) y ys hdrop
        simp [hy]
    · unfold matchHere
      rw [List.takeWhile_cons_of_neg (by simpa using hx)]
      simp

/-- Under `hasPat c l = false`, the whole regex search fails. -/
lemma reFirst_none (c : Char) :
    ∀ (l : List Char), hasPat c l = false → reFirst c l = none := by
  intro l
  induction l with
  | nil => intro _; rfl
  | cons x xs ih =>
    intro h
    unfold reFirst
    rw [matchHere_none c (x :: xs) h, ih (hasPat_tail h)]

lemma endsNonDigit_mem :
    ∀ (l : List Char), l ≠ [] → endsNonDigit l = true → ∃ z ∈ l, z.isDigit = false := by
  intro l
  induction l with
  | nil => intro h; cases h rfl
  | cons x xs ih =>
    intro _ h
    cases xs with
    | nil =>
      refine ⟨x, List.mem_singleton_self x, ?_⟩
      unfold endsNonDigit at h
      simpa using h
    | cons y rest =>
      unfold endsNonDigit at h
      obtain ⟨z, hz, hzd⟩ := ih (by simp) h
      exact ⟨z, List.mem_cons_of_mem x hz, hzd⟩

lemma takeWhile_all_append (P : Char → Bool) :
    ∀ (u v : List Char), (∀ x ∈ u, P x = true) →
      (u ++ v).takeWhile P = u ++ v.takeWhile P := by
  intro u
  induction u with
  | nil => intro v _; simp
  | cons x xs ih =>
    intro v hu
    have hx : P x = true := hu x (List.mem_cons_self x xs)
    simp only [List.cons_append]
    rw [List.takeWhile_cons_of_pos hx, ih v (fun z hz => hu z (List.mem_cons_of_mem x hz))]

lemma dropWhile_all_append (P : Char → Bool) :
    ∀ (u v : List Char), (∀ x ∈ u, P x = true) →
      (u ++ v).dropWhile P = v.dropWhile P := by
  intro u
  induction u with
  | nil => intro v _; simp
  | cons x xs ih =>
    intro v hu
    have hx : P x = true := hu x (List.mem_cons_self x xs)
    simp only [List.cons_append]
    rw [List.dropWhile_cons_of_pos hx, ih v (fun z hz => hu z (List.mem_cons_of_mem x hz))]

lemma dropWhile_append_of_ne_nil (P : Char → Bool) :
    ∀ (u v : List Char), u.dropWhile P ≠ [] →
      (u ++ v).dropWhile P = u.dropWhile P ++ v := by
  intro u
  induction u with
  | nil => intro v h; cases h rfl
  | cons x xs ih =>
    intro v h
    by_cases hx : P x = true
    · rw [List.dropWhile_cons_of_pos hx] at h
      simp only [List.cons_append]
      rw [List.dropWhile_cons_of_pos hx, List.dropWhile_cons_of_pos hx, ih v h]
    · have hx' : P x = false := by simpa using hx
      simp only [List.cons_append]
      rw [List.dropWhile_cons_of_neg (by simp [hx']), List.dropWhile_cons_of_neg (by simp [hx'])]
      simp

/-- A first match in the declarative sense is exactly what the regex search
returns. -/
lemma specMatch_reFirst {c : Char} (hc : c.isDigit = false) :
    ∀ (a ds b : List Char) (n : Nat),
      ds ≠ [] → (∀ d ∈ ds, d.isDigit = true) → endsNonDigit a = true →
      hasPat c (a ++ ds) = false → digitsVal ds = n →
      reFirst c (a ++ ds ++ c :: b) = some n := by
  intro a
  induction a with
  | nil =>
    intro ds b n hds hdig _ _ hval
    cases ds with
    | nil => cases hds rfl
    | cons d ds' =>
      simp only [List.nil_append]
      show reFirst c (d :: (ds' ++ c :: b)) = some n
      unfold reFirst
      have hmatch : matchHere c (d :: (ds' ++ c :: b)) = some n := by
        unfold matchHere
        rw [show (d :: (ds' ++ c :: b) : List Char) = (d :: ds') ++ c :: b from rfl]
        rw [takeWhile_all_append Char.isDigit (d :: ds') (c :: b) hdig]
        rw [dropWhile_all_append Char.isDigit (d :: ds') (c :: b) hdig]
        rw [List.takeWhile_cons_of_neg (by simp [hc]), List.dropWhile_cons_of_neg (by simp [hc])]
        simp [hval]
      rw [hmatch]
  | cons x a' ih =>
    intro ds b n hds hdig hend hpat hval
    show reFirst c (x :: (a' ++ ds ++ c :: b)) = some n
    unfold reFirst
    have hrec : reFirst c (a' ++ ds ++ c :: b) = some n := by
      apply ih ds b n hds hdig ?_ (hasPat_tail hpat) hval
      cases a' with
      | nil => rfl
      | cons w a'' =>
        unfold endsNonDigit at hend
        exact hend
    have hmatch : matchHere c (x :: (a' ++ ds ++ c :: b)) = none := by
      by_cases hx : x.isDigit = true
      · cases a' with
        | nil =>
          exfalso
          unfold endsNonDigit at hend
          rw [hx] at hend
          simp at hend
        | cons w a'' =>
          -- the maximal digit run from `x` ends inside `x :: w :: a'' ++ ds`,
          -- whose first non-digit is not `c`
          have hne : ((x :: w :: a'') ++ ds).dropWhile Char.isDigit ≠ [] := by
            rw [ne_eq, List.dropWhile_eq_nil_iff]
            obtain ⟨z, hz, hzd⟩ := endsNonDigit_mem (w :: a'') (by simp) hend
            intro hall
            have := hall z (by
              apply List.mem_append_left
              exact List.mem_cons_of_mem x hz)
            rw [hzd] at this
            cases this
          rcases hdr : ((x :: w :: a'') ++ ds).dropWhile Char.isDigit with _ | ⟨y, ys⟩
          · cases hne hdr
          · have hy : y ≠ c :=
              dropWhile_head_ne c ((x :: w :: a'') ++ ds) hpat (by simpa using hx) y ys hdr
            unfold matchHere
            rw [show (x :: (w :: a'' ++ ds ++ c :: b) : List Char) =
                  ((x :: w :: a'') ++ ds) ++ c :: b by simp]
            rw [dropWhile_append_of_ne_nil Char.isDigit ((x :: w :: a'') ++ ds) (c :: b) hne]
            rw [hdr]
            simp only [List.cons_append]
            rw [List.takeWhile_cons_of_pos hx]
            simp [hy]
      · unfold matchHere
        rw [List.takeWhile_cons_of_neg (by simpa using hx)]
        simp
    rw [hmatch, hrec]

/-- The value `specUnit` describes is the value the source computes. -/
lemma specUnit_getD {c : Char} (hc : c.isDigit = false) {l : List Char} {n : Nat}
    (h : specUnit c l n) : (reFirst c l).getD 0 = n := by
  rcases h with ⟨a, ds, b, rfl, hds, hdig, hend, hpat, hval⟩ | ⟨hnone, rfl⟩
  · rw [specMatch_reFirst hc a ds b n hds hdig hend hpat hval]
    rfl
  · rw [reFirst_none c l hnone]
    rfl

/-- C1, amended: for every non-sentinel input string, `parseTimeInStatus`
extracts, for each of the lower-case patterns `Nw`, `Nd`, `Nh` (the unit
letters are case-sensitive), the integer of the first occurrence in the
string (any subset of the three components present, in any order, an absent
component counting as zero) and returns `weeks*7 + days + hours/24`; in
particular `parseDuration("2w 3d 5h") = 2*7 + 3 + 5/24 = 17.208333...`. -/
theorem c1_parseDuration_extraction (s : String) (nw nd nh : Nat)
    (hs : ¬(s = "" ∨ s = "-" ∨ s = "No data"))
    (hw : specUnit 'w' s.toList nw) (hd : specUnit 'd' s.toList nd)
    (hh : specUnit 'h' s.toList nh) :
    parseTimeInStatus (some s) = (nw : ℚ) * 7 + (nd : ℚ) + (nh : ℚ) / 24 := by
  simp only [parseTimeInStatus]
  rw [if_neg hs]
  rw [specUnit_getD (by decide) hw, specUnit_getD (by decide) hd,
    specUnit_getD (by decide) hh]

/-- C1 witness: the stated example input, with the three first matches
given in the declarative form. -/
theorem c1_parseDuration_extraction_witness :
    (¬("2w 3d 5h" = "" ∨ "2w 3d 5h" = "-" ∨ "2w 3d 5h" = "No data")) ∧
    specUnit 'w' "2w 3d 5h".toList 2 ∧ specUnit 'd' "2w 3d 5h".toList 3 ∧
    specUnit 'h' "2w 3d 5h".toList 5 ∧
    parseTimeInStatus (some "2w 3d 5h") =
      ((2 : ℕ) : ℚ) * 7 + ((3 : ℕ) : ℚ) + ((5 : ℕ) : ℚ) / 24 := by
  have hs : ¬("2w 3d 5h" = "" ∨ "2w 3d 5h" = "-" ∨ "2w 3d 5h" = "No data") := by decide
  have hw : specUnit 'w' "2w 3d 5h".toList 2 :=
    Or.inl ⟨[], ['2'], " 3d 5h".toList, by decide, by decide, by decide, by decide,
      by decide, by decide⟩
  have hd : specUnit 'd' "2w 3d 5h".toList 3 :=
    Or.inl ⟨"2w ".toList, ['3'], " 5h".toList, by decide, by decide, by decide, by decide,
      by decide, by decide⟩
  have hh : specUnit 'h' "2w 3d 5h".toList 5 :=
    Or.inl ⟨"2w 3d ".toList, ['5'], [], by decide, by decide, by decide, by decide,
      by decide, by decide⟩
  exact ⟨hs, hw, hd, hh, c1_parseDuration_extraction "2w 3d 5h" 2 3 5 hs hw hd hh⟩

/-- C1 counterexample: the claim asserts
`parseDuration("2w 3d 5h") = 19.208333... = 461/24`, but the code yields
`2*7 + 3 + 5/24 = 413/24 = 17.208333...`; and the claim asserts the unit
letters are case-insensitive, but the regexes carry no `i` flag, so the
upper-case variant parses to `0` instead. -/
theorem c1_parseDuration_counterexample :
    parseTimeInStatus (some "2w 3d 5h") = 413 / 24 ∧
    (413 / 24 : ℚ) ≠ 461 / 24 ∧
    parseTimeInStatus (some "2W 3D 5H") = 0 := by
  refine ⟨?_, by norm_num, ?_⟩
  · have hw : reFirst 'w' "2w 3d 5h".toList = some 2 := by decide
    have hd : reFirst 'd' "2w 3d 5h".toList = some 3 := by decide
    have hh : reFirst 'h' "2w 3d 5h".toList = some 5 := by decide
    simp only [parseTimeInStatus]
    rw [if_neg (by decide), hw, hd, hh]
    norm_num
  · have hw : reFirst 'w' "2W 3D 5H".toList = none := by decide
    have hd : reFirst 'd' "2W 3D 5H".toList = none := by decide
    have hh : reFirst 'h' "2W 3D 5H".toList = none := by decide
    simp only [parseTimeInStatus]
    rw [if_neg (by decide), hw, hd, hh]
    norm_num

/-- C7: `parseTimeInStatus` is a total function of its (possibly nullish)
input — the model returns a value for every input, reflecting the falsy
guard and the enclosing `try`/`catch` — and it returns `0` for nullish
input, for the empty string, and for any text in which no digit is
immediately followed by a unit letter (no parseable duration component). -/
theorem c7_parseDuration_never_fails (t : Option String)
    (h : t = none ∨ t = some "" ∨
         ∃ s, t = some s ∧ hasPat 'w' s.toList = false ∧ hasPat 'd' s.toList = false ∧
           hasPat 'h' s.toList = false) :
    parseTimeInStatus t = 0 := by
  rcases h with rfl | rfl | ⟨s, rfl, hw, hd, hh⟩
  · rfl
  · rfl
  · simp only [parseTimeInStatus]
    by_cases hs : s = "" ∨ s = "-" ∨ s = "No data"
    · rw [if_pos hs]
    · rw [if_neg hs, reFirst_none 'w' _ hw, reFirst_none 'd' _ hd, reFirst_none 'h' _ hh]
      norm_num

/-- C7 witness: a string with no parseable duration component. -/
theorem c7_parseDuration_never_fails_witness :
    (some "about three weeks" = (none : Option String) ∨
     some "about three weeks" = some "" ∨
     ∃ s, some "about three weeks" = some s ∧ hasPat 'w' s.toList = false ∧
       hasPat 'd' s.toList = false ∧ hasPat 'h' s.toList = false) ∧
    parseTimeInStatus (some "about three weeks") = 0 := by
  have h : some "about three weeks" = (none : Option String) ∨
      some "about three weeks" = some "" ∨
      ∃ s, some "about three weeks" = some s ∧ hasPat 'w' s.toList = false ∧
        hasPat 'd' s.toList = false ∧ hasPat 'h' s.toList = false :=
    Or.inr (Or.inr ⟨"about three weeks", rfl, by decide, by decide, by decide⟩)
  exact ⟨h, c7_parseDuration_never_fails _ h⟩

/-! ## C2: the SLA classification -/

lemma alookup_mem {α : Type} {m : List (String × α)} {k : String} {v : α}
    (h : alookup m k = some v) : (k, v) ∈ m := by
  unfold alookup at h
  rcases hf : m.find? (fun p => p.1 = k) with _ | p
  · rw [hf] at h; cases h
  · rw [hf] at h
    have hp : p.1 = k := by simpa using List.find?_some hf
    have hv : p.2 = v := by simpa using h
    have hm : p ∈ m := List.mem_of_find?_eq_some hf
    have : p = (k, v) := Prod.ext hp hv
    rw [this] at hm
    exact hm

/-- C2, amended: completed statuses classify as closed unconditionally;
otherwise `days = parseDuration(timeInStatusText)` is compared with `>=`
against the threshold of the lower-cased status (the boundary
`days = threshold` is already at-risk), falling back to the map default
entry when the status is unlisted and does not name an inherited
`Object.prototype` member; for an unlisted lower-cased status that does name
such a member (for example `constructor` or `toString`), the lookup yields
the truthy inherited value, every numeric comparison against it is false,
and the result is always on-track regardless of elapsed time.  The
hypotheses — every listed threshold is a nonzero integer and a `default`
entry is present — hold for every threshold map the repository constructs. -/
theorem c2_calculateSLAStatus (cfg : Option Thresholds) (status : Option String)
    (t : String) (d : Int)
    (hvals : forall p, p ∈ getSLAThresholds cfg → p.2 ≠ 0)
    (hd : alookup (getSLAThresholds cfg) "default" = some d) :
    calculateSLAStatus cfg status t =
      (if isCompletedStatus status then (⟨"closed", "Closed"⟩ : SLAStatus)
       else
        match alookup (getSLAThresholds cfg) (statusKeyOf status) with
        | some v =>
          if (v : ℚ) ≤ parseTimeInStatus (some t) then ⟨"at-risk", "At Risk"⟩
          else ⟨"on-track", "On Track"⟩
        | none =>
          if statusKeyOf status ∈ objProtoProps then ⟨"on-track", "On Track"⟩
          else if (d : ℚ) ≤ parseTimeInStatus (some t) then ⟨"at-risk", "At Risk"⟩
          else ⟨"on-track", "On Track"⟩) := by
  unfold calculateSLAStatus
  by_cases hcomp : isCompletedStatus status
  · rw [if_pos hcomp, if_pos hcomp]
  · rw [if_neg hcomp, if_neg hcomp]
    rcases hlk : alookup (getSLAThresholds cfg) (statusKeyOf status) with _ | v
    · by_cases hproto : statusKeyOf status ∈ objProtoProps
      · have hth : threshLookup (getSLAThresholds cfg) (statusKeyOf status) =
            some ThreshVal.protoObj := by
          unfold threshLookup objGetThresh
          rw [hlk, if_pos hproto]
          simp [threshTruthy]
        rw [hth]
        simp [daysGE, hproto]
      · have hth : threshLookup (getSLAThresholds cfg) (statusKeyOf status) =
            some (ThreshVal.num d) := by
          unfold threshLookup objGetThresh
          rw [hlk, if_neg hproto, hd]
          simp
        rw [hth]
        simp only [daysGE, if_neg hproto]
        by_cases hle : (d : ℚ) ≤ parseTimeInStatus (some t)
        · rw [if_pos (by simpa using hle), if_pos hle]
        · rw [if_neg (by simpa using hle), if_neg hle]
    · have hv0 : v ≠ 0 := hvals (statusKeyOf status, v) (alookup_mem hlk)
      have hth : threshLookup (getSLAThresholds cfg) (statusKeyOf status) =
          some (ThreshVal.num v) := by
        unfold threshLookup objGetThresh
        rw [hlk]
        simp [threshTruthy, hv0]
      rw [hth]
      simp only [daysGE]
      by_cases hle : (v : ℚ) ≤ parseTimeInStatus (some t)
      · rw [if_pos (by simpa using hle), if_pos hle]
      · rw [if_neg (by simpa using hle), if_neg hle]

/-- C2 witness: the built-in default thresholds, a listed status, a
concrete duration text. -/
theorem c2_calculateSLAStatus_witness :
    (forall p, p ∈ getSLAThresholds none → p.2 ≠ 0) ∧
    alookup (getSLAThresholds none) "default" = some 30 ∧
    calculateSLAStatus none (some "In Progress") "25d" =
      (if isCompletedStatus (some "In Progress") then (⟨"closed", "Closed"⟩ : SLAStatus)
       else
        match alookup (getSLAThresholds none) (statusKeyOf (some "In Progress")) with
        | some v =>
          if (v : ℚ) ≤ parseTimeInStatus (some "25d") then ⟨"at-risk", "At Risk"⟩
          else ⟨"on-track", "On Track"⟩
        | none =>
          if statusKeyOf (some "In Progress") ∈ objProtoProps then ⟨"on-track", "On Track"⟩
          else if ((30 : Int) : ℚ) ≤ parseTimeInStatus (some "25d") then ⟨"at-risk", "At Risk"⟩
          else ⟨"on-track", "On Track"⟩) := by
  refine ⟨by decide, by decide, ?_⟩
  exact c2_calculateSLAStatus none (some "In Progress") "25d" 30 (by decide) (by decide)

/-- C2 counterexample: the status `constructor` is unlisted in the default
threshold map, so by the claim it should fall back to the default threshold
of 30 days and classify 100 days as at-risk; the code instead reads the
inherited `Object.prototype.constructor`, the comparison is false, and the
result is on-track. -/
theorem c2_calculateSLAStatus_counterexample :
    alookup (getSLAThresholds none) "constructor" = none ∧
    alookup (getSLAThresholds none) "default" = some 30 ∧
    isCompletedStatus (some "constructor") = false ∧
    parseTimeInStatus (some "100d") = 100 ∧
    ((30 : Int) : ℚ) ≤ 100 ∧
    calculateSLAStatus none (some "constructor") "100d" = ⟨"on-track", "On Track"⟩ := by
  refine ⟨by decide, by decide, by decide, ?_, by norm_num, by decide⟩
  have hw : reFirst 'w' "100d".toList = none := by decide
  have hd : reFirst 'd' "100d".toList = some 100 := by decide
  have hh : reFirst 'h' "100d".toList = none := by decide
  simp only [parseTimeInStatus]
  rw [if_neg (by decide), hw, hd, hh]
  norm_num

/-! ## C3: linkage priority -/

/-- Spec-side strategy for the Epic-Link, Epic-Key and Custom-parent
fields: succeed exactly when the cell holds a nonempty value naming a known
epic. -/
def stratKey (epics : List Epic) (col : Option String) (r : Rec) : Option String :=
  match getCell r col with
  | some v => if v ≠ "" ∧ hasKey epics v then some v else none
  | none => none

/-- Spec-side strategy for the Parent field: the cell value is an id whose
record must exist and have issue type `epic`; the linkage succeeds when that
record carries a nonempty key. -/
def stratParent (cols : Cols) (byId : List (String × Rec)) (r : Rec) : Option String :=
  match getCell r cols.parentCol with
  | some v =>
    if v ≠ "" then
      match alookup byId v with
      | some pr =>
        if (getCell pr cols.typeCol).map jsLower = some "epic" then
          match getCell pr cols.keyCol with
          | some k => if k ≠ "" then some k else none
          | none => none
        else none
      | none => none
    else none
  | none => none

/-- Spec-side linkage: the four strategies tried in fixed priority order,
stopping at the first success, then the final known-epic check. -/
def specLink (cols : Cols) (byId : List (String × Rec)) (epics : List Epic)
    (r : Rec) : Option String :=
  let first :=
    match stratKey epics cols.epicLinkCol r with
    | some k => some k
    | none =>
      match stratKey epics cols.epicKeyCol r with
      | some k => some k
      | none =>
        match stratParent cols byId r with
        | some k => some k
        | none => stratKey epics cols.customParentCol r
  match first with
  | some k => if hasKey epics k then some k else none
  | none => none

/-- The truthy view of a JS string value: the spec-side outcome that a
possibly falsy `parentEpicKey` denotes. -/
def toSpec (p : Option String) : Option String :=
  if jsT p then some (p.getD "") else none

lemma getCell_isSome {r : Rec} {c : Option String} {v : String}
    (h : getCell r c = some v) : c.isSome = true := by
  cases c with
  | none => cases h
  | some _ => rfl

lemma toSpec_of_jsT {p : Option String} (h : jsT p = true) : toSpec p = some (p.getD "") := by
  unfold toSpec
  rw [h]
  simp

lemma toSpec_of_not_jsT {p : Option String} (h : jsT p = false) : toSpec p = none := by
  unfold toSpec
  rw [h]
  simp

lemma tryKeyMatch_spec (epics : List Epic) (col : Option String) (r : Rec)
    (p : Option String) :
    toSpec (tryKeyMatch epics col r p) =
      (match toSpec p with
       | some k => some k
       | none => stratKey epics col r) := by
  by_cases hp : jsT p = true
  · rw [toSpec_of_jsT hp]
    unfold tryKeyMatch
    rw [hp]
    simp [toSpec_of_jsT hp]
  · have hp' : jsT p = false := by simpa using hp
    rw [toSpec_of_not_jsT hp']
    unfold tryKeyMatch stratKey
    rw [hp']
    rcases hc : getCell r col with _ | v
    · simp [jsT, toSpec_of_not_jsT hp']
    · rw [getCell_isSome hc]
      by_cases hv : v = ""
      · subst hv
        simp [jsT, toSpec_of_not_jsT hp']
      · have hjv : jsT (some v) = true := by simp [jsT, hv]
        simp only [hjv, Bool.not_false, Bool.true_and, Bool.and_true, Bool.and_self, if_true]
        by_cases hk : hasKey epics v
        · simp [hk, hv, toSpec, jsT]
        · simp [hk, hv, toSpec_of_not_jsT hp']

lemma tryParentId_spec (cols : Cols) (byId : List (String × Rec)) (r : Rec)
    (p : Option String) :
    toSpec (tryParentId cols byId r p) =
      (match toSpec p with
       | some k => some k
       | none => stratParent cols byId r) := by
  by_cases hp : jsT p = true
  · rw [toSpec_of_jsT hp]
    unfold tryParentId
    rw [hp]
    simp [toSpec_of_jsT hp]
  · have hp' : jsT p = false := by simpa using hp
    rw [toSpec_of_not_jsT hp']
    unfold tryParentId stratParent
    rw [hp']
    rcases hc : getCell r cols.parentCol with _ | v
    · simp [jsT, toSpec_of_not_jsT hp']
    · rw [getCell_isSome hc]
      by_cases hv : v = ""
      · subst hv
        simp [jsT, toSpec_of_not_jsT hp']
      · have hjv : jsT (some v) = true := by simp [jsT, hv]
        simp only [hjv, Bool.not_false, Bool.true_and, Bool.and_true, Bool.and_self,
          if_true, if_pos hv, Option.getD_some]
        rcases hb : alookup byId v with _ | pr
        · dsimp only
          exact toSpec_of_not_jsT hp'
        · dsimp only
          by_cases ht : (getCell pr cols.typeCol).map jsLower = some "epic"
          · rw [if_pos ht, if_pos ht]
            rcases hk : getCell pr cols.keyCol with _ | k
            · simp [toSpec, jsT]
            · by_cases hke : k = ""
              · subst hke
                simp [toSpec, jsT]
              · simp [toSpec, jsT, hke]
          · rw [if_neg ht, if_neg ht]
            exact toSpec_of_not_jsT hp'


lemma final_check_spec (epics : List Epic) (p : Option String) :
    (if jsT p && hasKey epics (p.getD "") then some (p.getD "") else none) =
      (match toSpec p with
       | some k => if hasKey epics k then some k else none
       | none => none) := by
  by_cases hp : jsT p = true
  · rw [toSpec_of_jsT hp]
    simp [hp]
  · have hp' : jsT p = false := by simpa using hp
    rw [toSpec_of_not_jsT hp']
    simp [hp']

/-- C3: in pass 2, the four linkage strategies — Epic-Link field, Epic-Key
field, Parent field resolved as an id whose record must have type `epic`,
Custom-parent field — are tried in that fixed priority order, stopping at
the first success; and in the concrete scenario of a record carrying both a
valid Epic-Link value (`AB-1`) and a valid Parent id (`200`, the id of the
distinct epic `AB-2`), the child is attached to the epic named by the
Epic-Link value. -/
theorem c3_linkage_priority :
    (∀ (cols : Cols) (byId : List (String × Rec)) (epics : List Epic) (r : Rec),
      linkDecision cols byId epics r = specLink cols byId epics r) ∧
    ((processMainCSV (⟨["Key", "ID", "Issue Type", "Status", "Summary", "Epic Link", "Parent"],
        [[("Key", "AB-1"), ("ID", "100"), ("Issue Type", "Epic"), ("Status", "Open"),
          ("Summary", "EpicOne")],
         [("Key", "AB-2"), ("ID", "200"), ("Issue Type", "Epic"), ("Status", "Open"),
          ("Summary", "EpicTwo")],
         [("Key", "AB-3"), ("ID", "300"), ("Issue Type", "Task"), ("Status", "Open"),
          ("Summary", "TaskOne"), ("Epic Link", "AB-1"), ("Parent", "200")]]⟩ : CSVData)).toOption.map
        (fun o => o.epics.map (fun e => (e.id, e.children.map (fun c => c.key)))) =
      some [(some "AB-1", [some "AB-3"]), (some "AB-2", [])]) := by
  constructor
  · intro cols byId epics r
    unfold linkDecision specLink
    rw [final_check_spec]
    rw [tryKeyMatch_spec, tryParentId_spec, tryKeyMatch_spec, tryKeyMatch_spec]
    have h0 : toSpec none = none := rfl
    rw [h0]
    rcases stratKey epics cols.epicLinkCol r with _ | k1
    · rcases stratKey epics cols.epicKeyCol r with _ | k2
      · rcases stratParent cols byId r with _ | k3 <;> rfl
      · rfl
    · rfl
  · decide

/-! ## C5: the fallback activation gate -/

/-- C5: the balanced-distribution fallback activates exactly when the
pass-2 linked count is strictly below 10 percent of the total record count
(stated with exact rational arithmetic), and whenever the linked count
reaches 10 percent the epics — and hence the attached children — are
exactly the pass-2 result: the remaining unlinked records gain no
attachment. -/
theorem c5_fallback_gate (data : CSVData) :
    (epicsStage data =
      (if (linkedCount data : ℚ) < (data.records.length : ℚ) / 10 then
        fallbackRun (resolveCols data.headers) data.records (pass2Stage data).1
      else (pass2Stage data).1)) ∧
    ((data.records.length : ℚ) / 10 ≤ (linkedCount data : ℚ) →
      epicsStage data = (pass2Stage data).1) := by
  have harith : (10 * (pass2Stage data).2 < data.records.length) ↔
      ((linkedCount data : ℚ) < (data.records.length : ℚ) / 10) := by
    rw [lt_div_iff₀ (by norm_num : (0 : ℚ) < 10)]
    unfold linkedCount
    constructor
    · intro h
      have : ((10 * (pass2Stage data).2 : ℕ) : ℚ) < ((data.records.length : ℕ) : ℚ) := by
        exact_mod_cast h
      push_cast at this
      linarith
    · intro h
      have : ((pass2Stage data).2 : ℚ) * 10 < (data.records.length : ℚ) := h
      have h2 : ((10 * (pass2Stage data).2 : ℕ) : ℚ) < ((data.records.length : ℕ) : ℚ) := by
        push_cast
        linarith
      exact_mod_cast h2
  constructor
  · unfold epicsStage
    by_cases hc : 10 * (pass2Stage data).2 < data.records.length
    · rw [if_pos hc, if_pos (harith.mp hc)]
    · rw [if_neg hc, if_neg (fun hq => hc (harith.mpr hq))]
  · intro hge
    unfold epicsStage
    have : ¬ (10 * (pass2Stage data).2 < data.records.length) := by
      intro hc
      exact absurd hge (not_le.mpr (harith.mp hc))
    rw [if_neg this]

/-- The three-record CSV used by the C5 witness: two epics and one task
linked via Epic Link, so 1 of 3 records link (at least 10 percent). -/
def c5csv : CSVData :=
  ⟨["Key", "ID", "Issue Type", "Status", "Summary", "Epic Link"],
   [[("Key", "AB-1"), ("Issue Type", "Epic"), ("Status", "Open"), ("Summary", "E")],
    [("Key", "AB-2"), ("Issue Type", "Epic"), ("Status", "Open"), ("Summary", "E")],
    [("Key", "AB-3"), ("Issue Type", "Task"), ("Status", "Open"), ("Summary", "T"),
     ("Epic Link", "AB-1")]]⟩

/-- C5 witness: on `c5csv` the linked count reaches 10 percent and the
epics stay exactly the pass-2 result. -/
theorem c5_fallback_gate_witness :
    (c5csv.records.length : ℚ) / 10 ≤ (linkedCount c5csv : ℚ) ∧
    epicsStage c5csv = (pass2Stage c5csv).1 := by
  have hlen : c5csv.records.length = 3 := by decide
  have hcnt : linkedCount c5csv = 1 := by decide
  have hge : (c5csv.records.length : ℚ) / 10 ≤ (linkedCount c5csv : ℚ) := by
    rw [hlen, hcnt]
    norm_num
  exact ⟨hge, (c5_fallback_gate c5csv).2 hge⟩

/-! ## C4: the balanced distribution target -/

/-- The `reduce` accumulator over `l` starting from `a` lands on the first
minimum of `a :: l`: it is a member, it is minimal, and it is the first
member whose count does not exceed its own. -/
lemma foldl_min_spec (c : Nat → Nat) :
    ∀ (l : List Nat) (a r : Nat),
      l.foldl (fun m i => if c i < c m then i else m) a = r →
      r ∈ a :: l ∧ (∀ x ∈ a :: l, c r ≤ c x) ∧
      (a :: l).find? (fun x => decide (c x ≤ c r)) = some r := by
  intro l
  induction l with
  | nil =>
    intro a r h
    simp only [List.foldl_nil] at h
    subst h
    refine ⟨List.mem_cons_self a [], ?_, ?_⟩
    · intro x hx
      rcases List.mem_cons.mp hx with rfl | hx
      · exact le_refl _
      · cases hx
    · exact List.find?_cons_of_pos [] (by simp)
  | cons x xs ih =>
    intro a r h
    simp only [List.foldl_cons] at h
    by_cases hcx : c x < c a
    · rw [if_pos hcx] at h
      obtain ⟨hmem, hmin, hfind⟩ := ih x r h
      refine ⟨List.mem_cons_of_mem a hmem, ?_, ?_⟩
      · intro y hy
        rcases List.mem_cons.mp hy with rfl | hy
        · exact le_trans (hmin x (List.mem_cons_self x xs)) (le_of_lt hcx)
        · exact hmin y hy
      · have hna : ¬ (decide (c a ≤ c r) = true) := by
          simp only [decide_eq_true_eq]
          push_neg
          exact lt_of_le_of_lt (hmin x (List.mem_cons_self x xs)) hcx
        rw [List.find?_cons_of_neg _ (by simpa using hna)]
        exact hfind
    · rw [if_neg hcx] at h
      have hax : c a ≤ c x := le_of_not_lt hcx
      obtain ⟨hmem, hmin, hfind⟩ := ih a r h
      have hmem' : r ∈ a :: x :: xs := by
        rcases List.mem_cons.mp hmem with rfl | hr
        · exact List.mem_cons_self r (x :: xs)
        · exact List.mem_cons_of_mem a (List.mem_cons_of_mem x hr)
      have hmin' : ∀ y ∈ a :: x :: xs, c r ≤ c y := by
        intro y hy
        rcases List.mem_cons.mp hy with rfl | hy
        · exact hmin y (List.mem_cons_self y xs)
        · rcases List.mem_cons.mp hy with rfl | hy
          · exact le_trans (hmin a (List.mem_cons_self a xs)) hax
          · exact hmin y (List.mem_cons_of_mem a hy)
      refine ⟨hmem', hmin', ?_⟩
      by_cases har : c a ≤ c r
      · have : (a :: xs).find? (fun y => decide (c y ≤ c r)) = some a :=
          List.find?_cons_of_pos _ (by simpa using har)
        rw [this] at hfind
        injection hfind with hra
        subst hra
        exact List.find?_cons_of_pos _ (by simp [har])
      · have hfind' : xs.find? (fun y => decide (c y ≤ c r)) = some r := by
          rw [List.find?_cons_of_neg _ (by simpa using har)] at hfind
          exact hfind
        have hxr : ¬ (c x ≤ c r) := by
          intro hxle
          exact har (le_trans hax hxle)
        rw [List.find?_cons_of_neg _ (by simpa using har),
          List.find?_cons_of_neg _ (by simpa using hxr)]
        exact hfind'

/-- C4, amended: when the balanced-distribution fallback runs, it operates
on every record whose lower-cased type is truthy and differs from `epic`
and whose key is truthy — including records already attached via strategies
1 to 4, which are then attached a second time.  Each step of the
distribution leaves the epics untouched when the record key carries no
upper-case-letters-plus-hyphen prefix matching a known epic project group,
and otherwise appends the child to the group epic currently holding the
fewest children, ties resolved to the first epic of the group list (kept
sorted ascending by epic key). -/
theorem c4_balanced_distribution (cols : Cols) (groups : List (String × List Nat))
    (epics : List Epic) (records : List Rec) (r : Rec) :
    (fallbackRun cols records epics =
      (records.filter (nonEpicFilter cols)).foldl
        (distributeStep cols (sortGroups epics (buildGroups epics))) epics) ∧
    (getProjKey (getCell r cols.keyCol) = none →
      distributeStep cols groups epics r = epics) ∧
    (∀ p, getProjKey (getCell r cols.keyCol) = some p → alookup groups p = none →
      distributeStep cols groups epics r = epics) ∧
    (∀ p g0 gs, getProjKey (getCell r cols.keyCol) = some p →
      alookup groups p = some (g0 :: gs) →
      ∃ t, t ∈ g0 :: gs ∧
        (∀ i ∈ g0 :: gs, childCountAt epics t ≤ childCountAt epics i) ∧
        (g0 :: gs).find?
          (fun i => decide (childCountAt epics i ≤ childCountAt epics t)) = some t ∧
        distributeStep cols groups epics r =
          addChildAt epics t (mkChildFB cols r (epicKeyAt epics t))) := by
  refine ⟨rfl, ?_, ?_, ?_⟩
  · intro hnone
    unfold distributeStep
    rw [hnone]
  · intro p hp hg
    unfold distributeStep
    rw [hp]
    dsimp only
    rw [hg]
  · intro p g0 gs hp hg
    unfold distributeStep
    rw [hp]
    dsimp only
    rw [hg]
    dsimp only
    have hfold : (g0 :: gs).foldl
        (fun m i => if childCountAt epics i < childCountAt epics m then i else m) g0 =
        gs.foldl (fun m i => if childCountAt epics i < childCountAt epics m then i else m) g0 := by
      simp
    obtain ⟨hmem, hmin, hfind⟩ :=
      foldl_min_spec (childCountAt epics) gs g0
        (gs.foldl (fun m i => if childCountAt epics i < childCountAt epics m then i else m) g0)
        rfl
    refine ⟨gs.foldl (fun m i => if childCountAt epics i < childCountAt epics m then i else m) g0,
      hmem, hmin, hfind, ?_⟩
    dsimp only
    unfold pickFewest
    rw [hfold]

/-- The epic skeleton used by the C4 witness. -/
def c4eA : Epic :=
  { id := some "AB-1", key := some "AB-1", issueId := none, name := none,
    status := none, sprint := "", storyPoints := 0, created := none, assignee := "",
    creator := "", component := "", project := "", children := [],
    totalStoryPoints := 0, completedStoryPoints := 0 }

/-- The second epic of the C4 witness. -/
def c4eB : Epic :=
  { c4eA with id := some "AB-2", key := some "AB-2" }

/-- C4 witness: a concrete distribution step with a matching project group
of two epics. -/
theorem c4_balanced_distribution_witness :
    getProjKey (getCell [("Key", "AB-9"), ("Issue Type", "Task")]
      (resolveCols ["Key", "Issue Type", "Status", "Summary"]).keyCol) = some "AB-" ∧
    alookup [("AB-", [0, 1])] "AB-" = some (0 :: [1]) ∧
    (∃ t, t ∈ 0 :: [1] ∧
      (∀ i ∈ 0 :: [1], childCountAt [c4eA, c4eB] t ≤ childCountAt [c4eA, c4eB] i) ∧
      (0 :: [1]).find?
        (fun i => decide (childCountAt [c4eA, c4eB] i ≤ childCountAt [c4eA, c4eB] t)) = some t ∧
      distributeStep (resolveCols ["Key", "Issue Type", "Status", "Summary"])
          [("AB-", [0, 1])] [c4eA, c4eB] [("Key", "AB-9"), ("Issue Type", "Task")] =
        addChildAt [c4eA, c4eB] t
          (mkChildFB (resolveCols ["Key", "Issue Type", "Status", "Summary"])
            [("Key", "AB-9"), ("Issue Type", "Task")] (epicKeyAt [c4eA, c4eB] t))) := by
  refine ⟨by decide, by decide, ?_⟩
  exact (c4_balanced_distribution (resolveCols ["Key", "Issue Type", "Status", "Summary"])
    [("AB-", [0, 1])] [c4eA, c4eB] [] [("Key", "AB-9"), ("Issue Type", "Task")]).2.2.2
    "AB-" 0 [1] (by decide) (by decide)

/-- The eleven-record CSV of the C4 counterexample: one task linked via
Epic Link in pass 2 (1 of 11 is below 10 percent, so the fallback runs) and
eight unlinked tasks. -/
def c4csv : CSVData :=
  ⟨["Key", "ID", "Issue Type", "Status", "Summary", "Epic Link"],
   [[("Key", "AB-1"), ("Issue Type", "Epic"), ("Status", "Open"), ("Summary", "E1")],
    [("Key", "AB-2"), ("Issue Type", "Epic"), ("Status", "Open"), ("Summary", "E2")],
    [("Key", "AB-3"), ("Issue Type", "Task"), ("Status", "Open"), ("Summary", "T"),
     ("Epic Link", "AB-1")],
    [("Key", "AB-4"), ("Issue Type", "Task"), ("Status", "Open"), ("Summary", "T")],
    [("Key", "AB-5"), ("Issue Type", "Task"), ("Status", "Open"), ("Summary", "T")],
    [("Key", "AB-6"), ("Issue Type", "Task"), ("Status", "Open"), ("Summary", "T")],
    [("Key", "AB-7"), ("Issue Type", "Task"), ("Status", "Open"), ("Summary", "T")],
    [("Key", "AB-8"), ("Issue Type", "Task"), ("Status", "Open"), ("Summary", "T")],
    [("Key", "AB-9"), ("Issue Type", "Task"), ("Status", "Open"), ("Summary", "T")],
    [("Key", "AB-10"), ("Issue Type", "Task"), ("Status", "Open"), ("Summary", "T")],
    [("Key", "AB-11"), ("Issue Type", "Task"), ("Status", "Open"), ("Summary", "T")]]⟩

/-- C4 counterexample: the record `AB-3` is already attached to `AB-1` via
the Epic-Link strategy, yet the fallback distributes it again, attaching it
a second time — to the different epic `AB-2` — so the fallback does not
operate only on unlinked records, and a record ends up attached to more
than one epic. -/
theorem c4_balanced_distribution_counterexample :
    (10 * linkedCount c4csv < c4csv.records.length) ∧
    ((processMainCSV c4csv).toOption.map (fun o =>
        (o.childIssues.filter (fun c => c.key == some "AB-3")).map
          (fun c => (c.parentEpicId, c.matchMethod)))) =
      some [(some "AB-1", none), (some "AB-2", some "balanced-distribution")] := by
  exact ⟨by decide, by decide⟩

/-! ## C6: story-point invariants -/

/-- The per-epic story-point invariant maintained by the hierarchy
builder. -/
def EpInv (e : Epic) : Prop :=
  0 ≤ e.storyPoints ∧ e.storyPoints ≤ e.totalStoryPoints ∧
  e.completedStoryPoints ≤ e.totalStoryPoints ∧ 0 ≤ e.completedStoryPoints

lemma EpInv_mkEpic (cols : Cols) (r : Rec)
    (h : 0 ≤ jsPoints (getCell r cols.pointsCol)) : EpInv (mkEpic cols r) := by
  unfold EpInv mkEpic
  refine ⟨h, le_refl _, ?_, ?_⟩
  · dsimp only
    split
    · exact le_refl _
    · exact h
  · dsimp only
    split
    · exact h
    · exact le_refl _

lemma EpInv_addChildAt (epics : List Epic) (i : Nat) (c : ChildIssue)
    (h : ∀ e ∈ epics, EpInv e) (hc : 0 ≤ c.storyPoints) :
    ∀ e ∈ addChildAt epics i c, EpInv e := by
  unfold addChildAt
  rcases hi : epics.get? i with _ | e0
  · exact h
  · intro e he
    rcases List.mem_or_eq_of_mem_set he with he' | rfl
    · exact h e he'
    · obtain ⟨h1, h2, h3, h4⟩ := h e0 (List.get?_mem hi)
      refine ⟨h1, ?_, ?_, ?_⟩
      · exact le_trans h2 (le_add_of_nonneg_right hc)
      · apply add_le_add h3
        split
        · exact le_refl _
        · exact hc
      · apply add_nonneg h4
        split
        · exact hc
        · exact le_refl _

lemma pass1_inv (cols : Cols) :
    ∀ (records : List Rec) (st : P1State),
      (∀ r ∈ records, 0 ≤ jsPoints (getCell r cols.pointsCol)) →
      (∀ e ∈ st.epics, EpInv e) →
      ∀ e ∈ (records.foldl (pass1Step cols) st).epics, EpInv e := by
  intro records
  induction records with
  | nil => intro st _ h; simpa using h
  | cons r rs ih =>
    intro st hpts h
    rw [List.foldl_cons]
    apply ih (pass1Step cols st r)
      (fun q hq => hpts q (List.mem_cons_of_mem r hq))
    intro e he
    unfold pass1Step at he
    dsimp only at he
    by_cases ht : ((getCell r cols.typeCol).map jsLower = some "epic")
    · rw [if_pos ht] at he
      rcases List.mem_append.mp he with he' | he'
      · exact h e he'
      · have : e = mkEpic cols r := by simpa using he'
        subst this
        exact EpInv_mkEpic cols r (hpts r (List.mem_cons_self r rs))
    · rw [if_neg ht] at he
      exact h e he

lemma pass2_inv (cols : Cols) (byId : List (String × Rec)) :
    ∀ (records : List Rec) (st : List Epic × Nat),
      (∀ r ∈ records, 0 ≤ jsPoints (getCell r cols.pointsCol)) →
      (∀ e ∈ st.1, EpInv e) →
      ∀ e ∈ (records.foldl (pass2Step cols byId) st).1, EpInv e := by
  intro records
  induction records with
  | nil => intro st _ h; simpa using h
  | cons r rs ih =>
    intro st hpts h
    rw [List.foldl_cons]
    apply ih (pass2Step cols byId st r)
      (fun q hq => hpts q (List.mem_cons_of_mem r hq))
    intro e he
    unfold pass2Step at he
    dsimp only at he
    by_cases ht : ((getCell r cols.typeCol).map jsLower = some "epic")
    · rw [if_pos ht] at he
      exact h e he
    · rw [if_neg ht] at he
      rcases hl : linkDecision cols byId st.1 r with _ | k
      · rw [hl] at he
        exact h e he
      · rw [hl] at he
        dsimp only at he
        rcases hi : lastIdxWithKey st.1 k with _ | i
        · rw [hi] at he
          exact h e he
        · rw [hi] at he
          dsimp only at he
          exact EpInv_addChildAt st.1 i (mkChild2 cols r k) h
            (hpts r (List.mem_cons_self r rs)) e he

lemma distribute_foldl_inv (cols : Cols) (groups : List (String × List Nat)) :
    ∀ (rs : List Rec) (epics : List Epic),
      (∀ r ∈ rs, 0 ≤ jsPoints (getCell r cols.pointsCol)) →
      (∀ e ∈ epics, EpInv e) →
      ∀ e ∈ rs.foldl (distributeStep cols groups) epics, EpInv e := by
  intro rs
  induction rs with
  | nil => intro epics _ h; simpa using h
  | cons r rest ih =>
    intro epics hpts h
    rw [List.foldl_cons]
    apply ih (distributeStep cols groups epics r)
      (fun q hq => hpts q (List.mem_cons_of_mem r hq))
    intro e he
    unfold distributeStep at he
    rcases hp : getProjKey (getCell r cols.keyCol) with _ | p
    · rw [hp] at he
      exact h e he
    · rw [hp] at he
      dsimp only at he
      rcases hg : alookup groups p with _ | g
      · rw [hg] at he
        exact h e he
      · rw [hg] at he
        dsimp only at he
        rcases g with _ | ⟨g0, gs⟩
        · exact h e he
        · dsimp only at he
          exact EpInv_addChildAt epics (pickFewest epics g0 (g0 :: gs))
            (mkChildFB cols r (epicKeyAt epics (pickFewest epics g0 (g0 :: gs)))) h
            (hpts r (List.mem_cons_self r rest)) e he

lemma fallbackRun_inv (cols : Cols) (records : List Rec) (epics : List Epic)
    (hpts : ∀ r ∈ records, 0 ≤ jsPoints (getCell r cols.pointsCol))
    (h : ∀ e ∈ epics, EpInv e) :
    ∀ e ∈ fallbackRun cols records epics, EpInv e := by
  unfold fallbackRun
  apply distribute_foldl_inv cols (sortGroups epics (buildGroups epics))
    (records.filter (nonEpicFilter cols)) epics
  · intro r hr
    exact hpts r (List.mem_of_mem_filter hr)
  · exact h

lemma mem_insEpic {e f : Epic} : ∀ {l : List Epic}, e ∈ insEpic f l → e = f ∨ e ∈ l := by
  intro l
  induction l with
  | nil =>
    intro he
    unfold insEpic at he
    exact Or.inl (by simpa using he)
  | cons g rest ih =>
    intro he
    unfold insEpic at he
    split at he
    · rcases List.mem_cons.mp he with rfl | he'
      · exact Or.inl rfl
      · exact Or.inr he'
    · rcases List.mem_cons.mp he with rfl | he'
      · exact Or.inr (List.mem_cons_self _ _)
      · rcases ih he' with rfl | hh
        · exact Or.inl rfl
        · exact Or.inr (List.mem_cons_of_mem _ hh)

lemma mem_sortEpicsByKey {e : Epic} :
    ∀ {l : List Epic}, e ∈ sortEpicsByKey l → e ∈ l := by
  intro l
  induction l with
  | nil =>
    intro he
    unfold sortEpicsByKey at he
    simp at he
  | cons f rest ih =>
    intro he
    unfold sortEpicsByKey at he
    rcases mem_insEpic he with rfl | hh
    · exact List.mem_cons_self _ _
    · exact List.mem_cons_of_mem _ (ih hh)

lemma epicsStage_inv (data : CSVData)
    (h : ∀ r ∈ data.records, 0 ≤ jsPoints (getCell r (resolveCols data.headers).pointsCol)) :
    ∀ e ∈ epicsStage data, EpInv e := by
  have hpass2 : ∀ e ∈ (pass2Stage data).1, EpInv e := by
    unfold pass2Stage pass2 pass1
    apply pass2_inv _ _ _ _ h
    apply pass1_inv _ _ _ h
    intro e he
    cases he
  unfold epicsStage
  split
  · exact fallbackRun_inv _ _ _ h hpass2
  · exact hpass2

/-- The epics returned by a successful `processMainCSV` are the staged
epics, sorted when there are at least two of them. -/
lemma processMainCSV_ok_epics {data : CSVData} {out : MainOut}
    (hout : processMainCSV data = Except.ok out) :
    out.epics = epicsStage data ∨ out.epics = sortEpicsByKey (epicsStage data) := by
  unfold processMainCSV mainBody at hout
  dsimp only at hout
  by_cases h1 : (epicsStage data).length ≤ 1
  · rw [if_pos h1] at hout
    dsimp only at hout
    injection hout with h2
    subst h2
    exact Or.inl rfl
  · rw [if_neg h1] at hout
    by_cases h2 : (epicsStage data).all (fun e => e.id.isSome) = true
    · rw [if_pos h2] at hout
      dsimp only at hout
      injection hout with h3
      subst h3
      exact Or.inr rfl
    · rw [if_neg h2] at hout
      dsimp only at hout
      cases hout

/-- C6: assuming every record parses to a nonnegative story-point value,
each child attachment (pass 2 or fallback) only adds the child points to
`totalStoryPoints` and, when the child status is completed, the same amount
to `completedStoryPoints`; and every epic returned by `processMainCSV`
satisfies `totalStoryPoints ≥ storyPoints` and
`completedStoryPoints ≤ totalStoryPoints`. -/
theorem c6_story_point_invariants (data : CSVData)
    (h : ∀ r ∈ data.records, 0 ≤ jsPoints (getCell r (resolveCols data.headers).pointsCol)) :
    (∀ (epics : List Epic) (i : Nat) (c : ChildIssue) (e0 : Epic),
      epics.get? i = some e0 →
      addChildAt epics i c =
        epics.set i
          { e0 with
            children := e0.children ++ [c]
            totalStoryPoints := e0.totalStoryPoints + c.storyPoints
            completedStoryPoints :=
              e0.completedStoryPoints + (if c.isCompleted then c.storyPoints else 0) }) ∧
    (∀ out, processMainCSV data = Except.ok out →
      ∀ e ∈ out.epics,
        e.storyPoints ≤ e.totalStoryPoints ∧
        e.completedStoryPoints ≤ e.totalStoryPoints) := by
  constructor
  · intro epics i c e0 h0
    unfold addChildAt
    rw [h0]
  · intro out hout e he
    have hstage : ∀ e ∈ epicsStage data, EpInv e := epicsStage_inv data h
    have hmem : e ∈ epicsStage data := by
      rcases processMainCSV_ok_epics hout with heq | heq
      · rw [heq] at he
        exact he
      · rw [heq] at he
        exact mem_sortEpicsByKey he
    obtain ⟨_, h2, h3, _⟩ := hstage e hmem
    exact ⟨h2, h3⟩

/-- The CSV of the C6 witness (no story-points column, so every record
parses to 0 points). -/
def c6csv : CSVData :=
  ⟨["Key", "ID", "Issue Type", "Status", "Summary", "Epic Link"],
   [[("Key", "AB-1"), ("Issue Type", "Epic"), ("Status", "Done"), ("Summary", "E")],
    [("Key", "AB-2"), ("Issue Type", "Task"), ("Status", "Open"), ("Summary", "T"),
     ("Epic Link", "AB-1")]]⟩

/-- C6 witness: the nonnegativity hypothesis holds on `c6csv`, and the
conclusion follows. -/
theorem c6_story_point_invariants_witness :
    (∀ r ∈ c6csv.records, 0 ≤ jsPoints (getCell r (resolveCols c6csv.headers).pointsCol)) ∧
    (∀ out, processMainCSV c6csv = Except.ok out →
      ∀ e ∈ out.epics,
        e.storyPoints ≤ e.totalStoryPoints ∧
        e.completedStoryPoints ≤ e.totalStoryPoints) := by
  have hcol : (resolveCols c6csv.headers).pointsCol = none := by decide
  have h : ∀ r ∈ c6csv.records, 0 ≤ jsPoints (getCell r (resolveCols c6csv.headers).pointsCol) := by
    intro r _
    rw [hcol]
    unfold getCell jsPoints
    simp
  exact ⟨h, (c6_story_point_invariants c6csv h).2⟩

/-! ## C8, C10: `mergeEpicData` -/

/-- C8: `mergeEpicData` returns one output per input epic; at every index,
when the per-epic processing raises, the output is the same epic extended
with the safe defaults (`timeInStatus = "-"`, `cycleTime = "-"`, SLA class
`on-track` with text `Unknown`), and when it does not raise the output is
the normally processed epic — so a per-epic failure affects only its own
entry and never propagates out. -/
theorem c8_merge_isolation (epics : List Epic) (tm : TimeMap) (cfg : Option Thresholds) :
    (mergeEpicData (some epics) (some tm) cfg).length = epics.length ∧
    ∀ i e, epics.get? i = some e →
      ((∀ err, mergeOneE cfg tm e = Except.error err →
          (mergeEpicData (some epics) (some tm) cfg).get? i = some (mergeDefault e)) ∧
       (∀ m, mergeOneE cfg tm e = Except.ok m →
          (mergeEpicData (some epics) (some tm) cfg).get? i = some m)) := by
  constructor
  · unfold mergeEpicData
    exact List.length_map _ _
  · intro i e hi
    constructor
    · intro err herr
      unfold mergeEpicData
      rw [List.get?_map, hi]
      simp only [Option.map_some', Option.getD_some]
      rw [herr]
    · intro m hm
      unfold mergeEpicData
      rw [List.get?_map, hi]
      simp only [Option.map_some', Option.getD_some]
      rw [hm]

/-- The epic whose merge fails in the C8 witness: an undefined status
combined with a nonempty time-data entry makes
`epic.status.toLowerCase()` raise inside the per-epic body. -/
def c8bad : Epic :=
  { id := some "AB-9", key := some "AB-9", issueId := none, name := none,
    status := none, sprint := "", storyPoints := 0, created := none, assignee := "",
    creator := "", component := "", project := "", children := [],
    totalStoryPoints := 0, completedStoryPoints := 0 }

/-- A sibling epic that merges normally in the C8 witness. -/
def c8good : Epic :=
  { c8bad with id := some "AB-1", key := some "AB-1", status := some "Open" }

/-- The time map of the C8 witness. -/
def c8tm : TimeMap :=
  [("AB-9", [("Open", "5d")])]

/-- C8 witness: in the two-epic batch, the second epic raises and is
replaced by the safe default at its own index. -/
theorem c8_merge_isolation_witness :
    [c8good, c8bad].get? 1 = some c8bad ∧
    mergeOneE none c8tm c8bad =
      Except.error "Cannot read properties of undefined (reading toLowerCase)" ∧
    (mergeEpicData (some [c8good, c8bad]) (some c8tm) none).length = 2 ∧
    (mergeEpicData (some [c8good, c8bad]) (some c8tm) none).get? 1 =
      some (mergeDefault c8bad) := by
  have hget : [c8good, c8bad].get? 1 = some c8bad := by decide
  have herr : mergeOneE none c8tm c8bad =
      Except.error "Cannot read properties of undefined (reading toLowerCase)" := by decide
  refine ⟨hget, herr, ?_, ?_⟩
  · exact (c8_merge_isolation [c8good, c8bad] c8tm none).1
  · exact ((c8_merge_isolation [c8good, c8bad] c8tm none).2 1 c8bad hget).1 _ herr

/-- An epic with an empty time map merges to the three defaults with the
SLA computed from the `"-"` sentinel. -/
lemma mergeOneE_empty (cfg : Option Thresholds) (e : Epic) :
    mergeOneE cfg [] e =
      Except.ok
        { base := e, timeInStatus := "-", cycleTime := "-",
          slaStatus := calculateSLAStatus cfg e.status "-" } := by
  unfold mergeOneE
  have htd : (e.id.bind (alookup ([] : TimeMap))).getD [] = [] := by
    cases e.id <;> rfl
  rw [htd]
  have hz : parseTimeInStatus (some (jsOr (alookup ([] : TimeData) "In Progress") "")) = 0 := rfl
  have hcy : ¬ ((0 : ℚ) <
      parseTimeInStatus (some (jsOr (alookup ([] : TimeData) "In Progress") "")) +
      parseTimeInStatus (some (jsOr (alookup ([] : TimeData) "Code Review") ""))) := by
    rw [hz]
    show ¬ ((0 : ℚ) < 0 + 0)
    norm_num
  simp only [List.isEmpty_nil, if_true, pure_bind]
  rw [if_neg hcy]
  rfl

/-- C10: a nullish (or non-array, which the model folds into the nullish
case) epics argument yields the empty list; a nullish time map behaves
exactly as the empty time map: every epic comes back with
`timeInStatus = "-"`, `cycleTime = "-"`, and an SLA status computed from the
`"-"` sentinel, which parses to zero elapsed days. -/
theorem c10_merge_nullish (tm : TimeMap) (cfg : Option Thresholds) (epics : List Epic) :
    mergeEpicData none (some tm) cfg = [] ∧
    mergeEpicData none none cfg = [] ∧
    mergeEpicData (some epics) none cfg = mergeEpicData (some epics) (some []) cfg ∧
    mergeEpicData (some epics) none cfg =
      epics.map (fun e =>
        { base := e, timeInStatus := "-", cycleTime := "-",
          slaStatus := calculateSLAStatus cfg e.status "-" }) ∧
    parseTimeInStatus (some "-") = 0 := by
  refine ⟨rfl, rfl, rfl, ?_, rfl⟩
  unfold mergeEpicData
  apply List.map_congr_left
  intro e _
  rw [show (none : Option TimeMap).getD [] = [] from rfl, mergeOneE_empty cfg e]

/-! ## C9: top-level error propagation -/

/-- C9, amended: `processMainCSV` re-raises any internal failure as a
single descriptive error naming the stage; `calculateMetrics` does not —
its `catch` swallows the internal failure and returns the minimal default
metrics object (a substitute result) instead. -/
theorem c9_error_wrapping :
    (∀ (data : CSVData) (m : String), mainBody data = Except.error m →
      processMainCSV data = Except.error ("Failed to process main CSV data: " ++ m)) ∧
    (∀ (es : List (Option MergedEpic)) (m : String), calculateMetricsE es = Except.error m →
      calculateMetrics (some es) = defaultMetrics es.length) := by
  constructor
  · intro data m hm
    unfold processMainCSV
    rw [hm]
  · intro es m hm
    unfold calculateMetrics
    dsimp only
    rw [hm]

/-- The headers-only CSV of the C9 witness: two epic records without any
key column, so the final sort comparator raises. -/
def c9csv : CSVData :=
  ⟨["Issue Type", "Status", "Summary"],
   [[("Issue Type", "Epic"), ("Status", "Open"), ("Summary", "A")],
    [("Issue Type", "Epic"), ("Status", "Open"), ("Summary", "B")]]⟩

/-- C9 witness: a concrete internal failure in each of the two functions. -/
theorem c9_error_wrapping_witness :
    mainBody c9csv =
      Except.error "Cannot read properties of undefined (reading localeCompare)" ∧
    processMainCSV c9csv =
      Except.error ("Failed to process main CSV data: " ++
        "Cannot read properties of undefined (reading localeCompare)") ∧
    calculateMetricsE [none] = Except.error "Cannot read properties of null (reading sprint)" ∧
    calculateMetrics (some [none]) = defaultMetrics 1 := by
  have h1 : mainBody c9csv =
      Except.error "Cannot read properties of undefined (reading localeCompare)" := by decide
  have h2 : calculateMetricsE [none] =
      Except.error "Cannot read properties of null (reading sprint)" := by decide
  refine ⟨h1, c9_error_wrapping.1 c9csv _ h1, h2, ?_⟩
  have := c9_error_wrapping.2 [none] _ h2
  simpa using this

/-- C9 counterexample: the metrics body raises on a batch holding a `null`
epic, and `calculateMetrics` returns the minimal default metrics object —
a silent substitute result — instead of re-raising a descriptive
"failed to calculate metrics" error. -/
theorem c9_error_wrapping_counterexample :
    calculateMetricsE [none] = Except.error "Cannot read properties of null (reading sprint)" ∧
    calculateMetrics (some [none]) = defaultMetrics 1 := by
  exact ⟨by decide, by rfl⟩

end PredictIQ
